import Mathlib

/-!
Verification of the raspiscope messaging core (`communicator.py`, `eventManager.py`).

The development shallowly embeds:
* Python JSON values (`Json`), Python's `json.dumps` (with its default
  `ensure_ascii=True` escaping and `", "` / `": "` separators) and a model of
  `json.loads`;
* the newline framing and the buffering receive loops
  (`Communicator._serverHandleClient`, `Communicator._clientReceiveLoop`);
* the hub dispatch loop (`Communicator._serverSendLoop`);
* the router step (`EventManager.route`) including its Python exception
  behaviour (`dict.get` on a non-dict raises `AttributeError`, caught by the
  `except (AttributeError, TypeError)` handler);
* the shutdown sequence (`EventManager._cleanup`) interleaved with the
  dispatch loop as a small scheduler-indexed transition system;
* the server startup control flow (`Communicator._initializeServer` /
  `Communicator.run`).

Python floats are outside the embedding (floating point); `Json` numbers are
integers.  Python `str` is modelled by Lean `String`/`List Char` (Unicode
scalar values; lone surrogates are not representable and never produced by
the code's own messages).
-/

/-- A Python value that can appear as a parsed JSON document: `None`, `bool`,
`int`, `str`, `list`, `dict`.  (Floats are excluded from the embedding.) -/
inductive Json where
  | null : Json
  | bool : Bool → Json
  | num : Int → Json
  | str : String → Json
  | arr : List Json → Json
  | obj : List (String × Json) → Json
deriving Repr

mutual
/-- Decidable equality of Python JSON values (structural, so that closed
comparisons evaluate). -/
def Json.decEq : (a b : Json) → Decidable (a = b)
  | .null, .null => isTrue rfl
  | .bool a, .bool b =>
    if h : a = b then isTrue (by rw [h]) else isFalse (fun e => h (Json.bool.inj e))
  | .num a, .num b =>
    if h : a = b then isTrue (by rw [h]) else isFalse (fun e => h (Json.num.inj e))
  | .str a, .str b =>
    if h : a = b then isTrue (by rw [h]) else isFalse (fun e => h (Json.str.inj e))
  | .arr xs, .arr ys =>
    match Json.decEqList xs ys with
    | isTrue h => isTrue (by rw [h])
    | isFalse h => isFalse (fun e => h (Json.arr.inj e))
  | .obj kvs, .obj lws =>
    match Json.decEqMembers kvs lws with
    | isTrue h => isTrue (by rw [h])
    | isFalse h => isFalse (fun e => h (Json.obj.inj e))
  | .null, .bool _ => isFalse (fun e => Json.noConfusion e)
  | .null, .num _ => isFalse (fun e => Json.noConfusion e)
  | .null, .str _ => isFalse (fun e => Json.noConfusion e)
  | .null, .arr _ => isFalse (fun e => Json.noConfusion e)
  | .null, .obj _ => isFalse (fun e => Json.noConfusion e)
  | .bool _, .null => isFalse (fun e => Json.noConfusion e)
  | .bool _, .num _ => isFalse (fun e => Json.noConfusion e)
  | .bool _, .str _ => isFalse (fun e => Json.noConfusion e)
  | .bool _, .arr _ => isFalse (fun e => Json.noConfusion e)
  | .bool _, .obj _ => isFalse (fun e => Json.noConfusion e)
  | .num _, .null => isFalse (fun e => Json.noConfusion e)
  | .num _, .bool _ => isFalse (fun e => Json.noConfusion e)
  | .num _, .str _ => isFalse (fun e => Json.noConfusion e)
  | .num _, .arr _ => isFalse (fun e => Json.noConfusion e)
  | .num _, .obj _ => isFalse (fun e => Json.noConfusion e)
  | .str _, .null => isFalse (fun e => Json.noConfusion e)
  | .str _, .bool _ => isFalse (fun e => Json.noConfusion e)
  | .str _, .num _ => isFalse (fun e => Json.noConfusion e)
  | .str _, .arr _ => isFalse (fun e => Json.noConfusion e)
  | .str _, .obj _ => isFalse (fun e => Json.noConfusion e)
  | .arr _, .null => isFalse (fun e => Json.noConfusion e)
  | .arr _, .bool _ => isFalse (fun e => Json.noConfusion e)
  | .arr _, .num _ => isFalse (fun e => Json.noConfusion e)
  | .arr _, .str _ => isFalse (fun e => Json.noConfusion e)
  | .arr _, .obj _ => isFalse (fun e => Json.noConfusion e)
  | .obj _, .null => isFalse (fun e => Json.noConfusion e)
  | .obj _, .bool _ => isFalse (fun e => Json.noConfusion e)
  | .obj _, .num _ => isFalse (fun e => Json.noConfusion e)
  | .obj _, .str _ => isFalse (fun e => Json.noConfusion e)
  | .obj _, .arr _ => isFalse (fun e => Json.noConfusion e)

/-- Decidable equality of element lists. -/
def Json.decEqList : (xs ys : List Json) → Decidable (xs = ys)
  | [], [] => isTrue rfl
  | [], _ :: _ => isFalse (fun e => List.noConfusion e)
  | _ :: _, [] => isFalse (fun e => List.noConfusion e)
  | x :: xs, y :: ys =>
    match Json.decEq x y, Json.decEqList xs ys with
    | isTrue h1, isTrue h2 => isTrue (by rw [h1, h2])
    | isFalse h1, _ => isFalse (fun e => h1 (List.cons.inj e).1)
    | _, isFalse h2 => isFalse (fun e => h2 (List.cons.inj e).2)

/-- Decidable equality of member lists. -/
def Json.decEqMembers : (kvs lws : List (String × Json)) → Decidable (kvs = lws)
  | [], [] => isTrue rfl
  | [], _ :: _ => isFalse (fun e => List.noConfusion e)
  | _ :: _, [] => isFalse (fun e => List.noConfusion e)
  | (k, v) :: kvs, (l, w) :: lws =>
    if h : k = l then
      match Json.decEq v w, Json.decEqMembers kvs lws with
      | isTrue h2, isTrue h3 => isTrue (by rw [h, h2, h3])
      | isFalse h2, _ => isFalse (by
          intro e
          injection e with e1 e2
          exact h2 (congrArg Prod.snd e1))
      | _, isFalse h3 => isFalse (by
          intro e
          injection e with e1 e2
          exact h3 e2)
    else isFalse (by
      intro e
      injection e with e1 e2
      exact h (congrArg Prod.fst e1))
end

instance : DecidableEq Json := Json.decEq

/-- Python exception classes relevant to the modelled code paths. -/
inductive PyErr where
  | attributeError
  | typeError
  | keyError
  | valueError
deriving DecidableEq, Repr

/-- `message.get(k)` : returns the value bound to `k` (or `None` when absent)
when the receiver is a dict, and raises `AttributeError` otherwise. -/
def Json.get : Json → String → Except PyErr Json
  | .obj kvs, k =>
    .ok (match kvs.find? (fun kv => kv.1 == k) with
         | some kv => kv.2
         | none => .null)
  | _, _ => .error .attributeError

/-- `message.get(k, d)` : like `Json.get` but with an explicit default. -/
def Json.getD : Json → String → Json → Except PyErr Json
  | .obj kvs, k, d =>
    .ok (match kvs.find? (fun kv => kv.1 == k) with
         | some kv => kv.2
         | none => d)
  | _, _, _ => .error .attributeError


/-! ## `json.dumps` -/

/-- The opening curly bracket character (`\x7b`). -/
def lbrace : Char := Char.ofNat 123

/-- The closing curly bracket character (`\x7d`). -/
def rbrace : Char := Char.ofNat 125

/-- Decimal digit character. -/
def digitChar (d : Nat) : Char := Char.ofNat (48 + d)

/-- Decimal digits of `n`, least-significant first, with explicit fuel
(`fuel ≥ n` suffices; structural so that closed terms evaluate). -/
def natDigitsAux : Nat → Nat → List Char
  | 0, n => [digitChar n]
  | fuel + 1, n =>
    if n < 10 then [digitChar n]
    else digitChar (n % 10) :: natDigitsAux fuel (n / 10)

/-- Decimal digits of a natural number, least-significant first
(the reverse of Python `str(n)`). -/
def natToDigitsRev (n : Nat) : List Char := natDigitsAux n n

/-- Python `str(n)` for a natural number. -/
def natRepr (n : Nat) : List Char := (natToDigitsRev n).reverse

/-- Python `str(n)` for an int (what `json.dumps` emits for an int). -/
def intRepr (n : Int) : List Char :=
  if n < 0 then '-' :: natRepr n.natAbs else natRepr n.toNat

/-- Lowercase hexadecimal digit, as emitted in `json.dumps` `\uXXXX` escapes. -/
def hexDigitChar (d : Nat) : Char :=
  if d < 10 then Char.ofNat (48 + d) else Char.ofNat (87 + d)

/-- The four lowercase hex digits of `n < 0x10000`. -/
def hex4 (n : Nat) : List Char :=
  [hexDigitChar (n / 4096 % 16), hexDigitChar (n / 256 % 16),
   hexDigitChar (n / 16 % 16), hexDigitChar (n % 16)]

/-- The escape of one character inside a JSON string literal, following
Python `json.dumps` with its default `ensure_ascii=True`: printable ASCII
other than `"` and `\` is literal, the short escapes are used for the common
control characters, every other character becomes `\uXXXX` (a surrogate pair
for characters beyond the BMP). -/
def escChar (c : Char) : List Char :=
  if c = '"' then ['\\', '"']
  else if c = '\\' then ['\\', '\\']
  else if c = '\n' then ['\\', 'n']
  else if c = '\r' then ['\\', 'r']
  else if c = '\t' then ['\\', 't']
  else if c.toNat = 8 then ['\\', 'b']
  else if c.toNat = 12 then ['\\', 'f']
  else if c.toNat < 0x20 then '\\' :: 'u' :: hex4 c.toNat
  else if c.toNat < 0x7f then [c]
  else if c.toNat < 0x10000 then '\\' :: 'u' :: hex4 c.toNat
  else ('\\' :: 'u' :: hex4 (0xD800 + (c.toNat - 0x10000) / 0x400)) ++
       ('\\' :: 'u' :: hex4 (0xDC00 + (c.toNat - 0x10000) % 0x400))

/-- A JSON string literal: `"` , the escaped characters, `"`. -/
def escString (s : String) : List Char :=
  '"' :: (s.data.map escChar).flatten ++ ['"']

/-- The characters of the JSON literal `null`. -/
def nullLit : List Char := ['n', 'u', 'l', 'l']

/-- The characters of the JSON literal `true`. -/
def trueLit : List Char := ['t', 'r', 'u', 'e']

/-- The characters of the JSON literal `false`. -/
def falseLit : List Char := ['f', 'a', 'l', 's', 'e']

mutual
/-- Python `json.dumps` with its defaults (separators `", "` and `": "`,
`ensure_ascii=True`), as the emitted character sequence.  This is the
serialization used by `Communicator._serverSendLoop` and
`Communicator._clientSendLoop` (`json.dumps(message)`). -/
def Json.dumps : Json → List Char
  | .null => nullLit
  | .bool true => trueLit
  | .bool false => falseLit
  | .num n => intRepr n
  | .str s => escString s
  | .arr [] => ['[', ']']
  | .arr (x :: xs) => '[' :: (Json.dumps x ++ dumpsArrTail xs) ++ [']']
  | .obj [] => [lbrace, rbrace]
  | .obj (kv :: kvs) =>
      lbrace :: (escString kv.1 ++ ':' :: ' ' :: Json.dumps kv.2 ++ dumpsObjTail kvs) ++ [rbrace]

/-- The remaining elements of a serialized array, each preceded by `", "`. -/
def dumpsArrTail : List Json → List Char
  | [] => []
  | x :: xs => ',' :: ' ' :: (Json.dumps x ++ dumpsArrTail xs)

/-- The remaining members of a serialized object, each preceded by `", "`. -/
def dumpsObjTail : List (String × Json) → List Char
  | [] => []
  | kv :: kvs => ',' :: ' ' :: (escString kv.1 ++ ':' :: ' ' :: Json.dumps kv.2 ++ dumpsObjTail kvs)
end

mutual
/-- A fuel bound for parsing the serialization of a value (see `parseValue`). -/
def sizeJ : Json → Nat
  | .null | .bool _ | .num _ | .str _ => 1
  | .arr xs => 2 + sizeItems xs
  | .obj kvs => 2 + sizeMembers kvs

/-- Fuel bound for the elements of an array. -/
def sizeItems : List Json → Nat
  | [] => 0
  | x :: xs => 1 + sizeJ x + sizeItems xs

/-- Fuel bound for the members of an object. -/
def sizeMembers : List (String × Json) → Nat
  | [] => 0
  | kv :: kvs => 1 + sizeJ kv.2 + sizeMembers kvs
end

/-- No string occurs twice in the list (dict keys are unique). -/
def nodupKeys : List String → Bool
  | [] => true
  | k :: ks => !(ks.contains k) && nodupKeys ks

mutual
/-- A `Json` value corresponds to an actual Python value exactly when every
object in it has no duplicate keys (Python dict keys are unique). -/
def Json.validB : Json → Bool
  | .null | .bool _ | .num _ | .str _ => true
  | .arr xs => validList xs
  | .obj kvs => nodupKeys (kvs.map Prod.fst) && validMembers kvs

/-- All elements valid. -/
def validList : List Json → Bool
  | [] => true
  | x :: xs => x.validB && validList xs

/-- All member values valid. -/
def validMembers : List (String × Json) → Bool
  | [] => true
  | kv :: kvs => kv.2.validB && validMembers kvs
end

/-! ## `json.loads` (model) -/

/-- Value of a hexadecimal digit (JSON `\uXXXX` accepts both cases). -/
def hexVal (c : Char) : Option Nat :=
  if 48 ≤ c.toNat ∧ c.toNat ≤ 57 then some (c.toNat - 48)
  else if 97 ≤ c.toNat ∧ c.toNat ≤ 102 then some (c.toNat - 87)
  else if 65 ≤ c.toNat ∧ c.toNat ≤ 70 then some (c.toNat - 55)
  else none

/-- Combined value of four hexadecimal digits. -/
def hex4Val (a b c d : Char) : Option Nat :=
  match hexVal a, hexVal b, hexVal c, hexVal d with
  | some x, some y, some z, some w => some (4096 * x + 256 * y + 16 * z + w)
  | _, _, _, _ => none

/-- Prepend a character to the string being decoded. -/
def consFst (c : Char) : Option (List Char × List Char) → Option (List Char × List Char)
  | some (s, r) => some (c :: s, r)
  | none => none

mutual
/-- Parse the body of a JSON string literal (after the opening quote) up to
and including the closing quote, undoing the escapes of `escChar`, combining
surrogate pairs as `json.loads` does.  A lone surrogate escape is rejected
(it denotes no Unicode scalar value). -/
def parseStringBody : List Char → Option (List Char × List Char)
  | [] => none
  | c :: rest =>
    if c = '"' then some ([], rest)
    else if c = '\\' then parseEsc rest
    else if c.toNat < 0x20 then none
    else consFst c (parseStringBody rest)

/-- Dispatch on the character after a backslash. -/
def parseEsc : List Char → Option (List Char × List Char)
  | [] => none
  | e :: rest =>
    if e = '"' then consFst '"' (parseStringBody rest)
    else if e = '\\' then consFst '\\' (parseStringBody rest)
    else if e = '/' then consFst '/' (parseStringBody rest)
    else if e = 'n' then consFst '\n' (parseStringBody rest)
    else if e = 'r' then consFst '\r' (parseStringBody rest)
    else if e = 't' then consFst '\t' (parseStringBody rest)
    else if e = 'b' then consFst (Char.ofNat 8) (parseStringBody rest)
    else if e = 'f' then consFst (Char.ofNat 12) (parseStringBody rest)
    else if e = 'u' then parseU rest
    else none

/-- A `\uXXXX` escape: a non-surrogate code is a character; a high
surrogate must be followed by a low surrogate escape. -/
def parseU : List Char → Option (List Char × List Char)
  | h1 :: h2 :: h3 :: h4 :: r =>
    match hex4Val h1 h2 h3 h4 with
    | none => none
    | some n =>
      if n < 0xD800 ∨ 0xDFFF < n then consFst (Char.ofNat n) (parseStringBody r)
      else if n < 0xDC00 then parseLow n r
      else none
  | _ => none

/-- The low-surrogate escape completing a surrogate pair whose high half had
code `n`. -/
def parseLow (n : Nat) : List Char → Option (List Char × List Char)
  | a :: b :: g1 :: g2 :: g3 :: g4 :: r2 =>
    if a = '\\' ∧ b = 'u' then
      match hex4Val g1 g2 g3 g4 with
      | some m =>
        if 0xDC00 ≤ m ∧ m ≤ 0xDFFF then
          consFst (Char.ofNat (0x10000 + (n - 0xD800) * 0x400 + (m - 0xDC00)))
            (parseStringBody r2)
        else none
      | none => none
    else none
  | _ => none
end

/-- Decimal digit test on the character's code. -/
def isDigitCh (c : Char) : Bool := 48 ≤ c.toNat && c.toNat ≤ 57

/-- Split a leading run of decimal digits off the input. -/
def takeDigits : List Char → (List Char × List Char)
  | [] => ([], [])
  | c :: cs =>
    if isDigitCh c then
      let (ds, r) := takeDigits cs
      (c :: ds, r)
    else ([], c :: cs)

/-- Value of a big-endian digit string. -/
def digitsToNat (ds : List Char) : Nat :=
  ds.foldl (fun acc c => 10 * acc + (c.toNat - 48)) 0

/-- The input does not continue with a decimal digit (used to state that a
serialized number is followed by a delimiter, so digit-taking stops). -/
def numOk : List Char → Bool
  | [] => true
  | c :: _ => !isDigitCh c

/-- JSON insignificant whitespace. -/
def isWs (c : Char) : Bool := c = ' ' || c = '\t' || c = '\n' || c = '\r'

/-- Drop leading insignificant whitespace. -/
def skipWs (cs : List Char) : List Char := cs.dropWhile isWs

/-- Python builds a dict from parsed members: a repeated key keeps its first
position and takes the latest value. -/
def dictInsert (kvs : List (String × Json)) (k : String) (v : Json) : List (String × Json) :=
  if kvs.any (fun kv => kv.1 == k) then
    kvs.map (fun kv => if kv.1 == k then (kv.1, v) else kv)
  else kvs ++ [(k, v)]

/-- Fold parsed members into a dict. -/
def buildDict (pairs : List (String × Json)) : List (String × Json) :=
  pairs.foldl (fun acc kv => dictInsert acc kv.1 kv.2) []

mutual
/-- Fuel-indexed recursive-descent parser for one JSON value (the model of
`json.loads`; numbers are restricted to integers, matching the `Json`
embedding — Python floats are outside it).  The fuel is an artifact of the
embedding; any sufficiently large fuel gives the behaviour of the
unbounded recursion. -/
def parseValue : Nat → List Char → Option (Json × List Char)
  | 0, _ => none
  | fuel + 1, cs =>
    match skipWs cs with
    | [] => none
    | c :: rest =>
      if c = 'n' then
        match rest with
        | 'u' :: 'l' :: 'l' :: r => some (.null, r)
        | _ => none
      else if c = 't' then
        match rest with
        | 'r' :: 'u' :: 'e' :: r => some (.bool true, r)
        | _ => none
      else if c = 'f' then
        match rest with
        | 'a' :: 'l' :: 's' :: 'e' :: r => some (.bool false, r)
        | _ => none
      else if c = '"' then
        match parseStringBody rest with
        | some (s, r) => some (.str ⟨s⟩, r)
        | none => none
      else if c = '[' then
        match skipWs rest with
        | ']' :: r => some (.arr [], r)
        | cs2 =>
          match parseItems fuel cs2 with
          | some (xs, r) => some (.arr xs, r)
          | none => none
      else if c = lbrace then
        match skipWs rest with
        | [] => none
        | d :: r =>
          if d = rbrace then some (.obj [], r)
          else
            match parseMembers fuel (d :: r) with
            | some (kvs, r2) => some (.obj (buildDict kvs), r2)
            | none => none
      else if c = '-' then
        match takeDigits rest with
        | ([], _) => none
        | (ds, r) => some (.num (-(digitsToNat ds : Int)), r)
      else if isDigitCh c then
        match takeDigits (c :: rest) with
        | (ds, r) => some (.num (digitsToNat ds : Int), r)
      else none

/-- The comma-separated elements of a non-empty array, through `]`. -/
def parseItems : Nat → List Char → Option (List Json × List Char)
  | 0, _ => none
  | fuel + 1, cs =>
    match parseValue fuel cs with
    | none => none
    | some (v, r) =>
      match skipWs r with
      | ',' :: r2 =>
        match parseItems fuel r2 with
        | some (vs, r3) => some (v :: vs, r3)
        | none => none
      | ']' :: r2 => some ([v], r2)
      | _ => none

/-- The comma-separated members of a non-empty object, through the closing
curly bracket. -/
def parseMembers : Nat → List Char → Option (List (String × Json) × List Char)
  | 0, _ => none
  | fuel + 1, cs =>
    match skipWs cs with
    | '"' :: r =>
      match parseStringBody r with
      | some (k, r1) =>
        match skipWs r1 with
        | ':' :: r2 =>
          match parseValue fuel r2 with
          | some (v, r3) =>
            match skipWs r3 with
            | ',' :: r4 =>
              match parseMembers fuel r4 with
              | some (kvs, r5) => some ((⟨k⟩, v) :: kvs, r5)
              | none => none
            | d :: r4 => if d = rbrace then some ([(⟨k⟩, v)], r4) else none
            | [] => none
          | none => none
        | _ => none
      | none => none
    | _ => none
end

/-- Model of `json.loads`: parse one document with surrounding whitespace
allowed and trailing data rejected.  The fuel `2·|input| + 1` is enough for
any parse the unbounded recursion would complete (each nesting step consumes
input). -/
def Json.loads (cs : List Char) : Option Json :=
  match parseValue (2 * cs.length + 1) cs with
  | some (v, r) => if skipWs r = [] then some v else none
  | none => none


/-! ## Newline framing and the buffering receive loops -/

/-- `json.dumps(message) + '\n'` — the encoding of one envelope on the wire
(the `json_message` of `Communicator._serverSendLoop` and the `json_data` of
`Communicator._clientSendLoop`). -/
def encodeEnvelope (e : Json) : List Char := e.dumps ++ ['\n']

/-- Split the buffer at every newline: the segments that precede a newline
(in order, empty ones included) and the trailing newline-free remainder.
Iterating `buffer.split('\n', 1)` while `'\n' in buffer` — the inner loop of
`Communicator._serverHandleClient` and `Communicator._clientReceiveLoop` —
produces exactly these segments and leaves this remainder. -/
def splitNL : List Char → List (List Char) × List Char
  | [] => ([], [])
  | c :: cs =>
    if c = '\n' then ([] :: (splitNL cs).1, (splitNL cs).2)
    else
      match splitNL cs with
      | ([], r) => ([], c :: r)
      | (s :: ss2, r) => ((c :: s) :: ss2, r)

/-- The complete units extracted from the buffer (the receive loops skip
empty units: `if message_str:`), and the new buffer. -/
def extractUnits (buffer : List Char) : List (List Char) × List Char :=
  let (ss, r) := splitNL buffer
  (ss.filter (fun s => !s.isEmpty), r)

/-- Feed a sequence of received chunks through the buffering receive loop:
each chunk is appended to the buffer and the complete units are extracted;
an empty chunk is a disconnected peer (`if data: ... else: break`).  Returns
all extracted units in order and the final buffer. -/
def feedChunks : List Char → List (List Char) → List (List Char) × List Char
  | buf, [] => ([], buf)
  | buf, d :: ds =>
    if d.isEmpty then ([], buf)
    else
      let (us, b1) := extractUnits (buf ++ d)
      let (us2, b2) := feedChunks b1 ds
      (us ++ us2, b2)

/-- `Communicator._parseMessages` on one complete unit: a decode error is
logged and contributes no message. -/
def parseMessages (unit : List Char) : List Json :=
  match Json.loads unit with
  | some v => [v]
  | none => []

/-- The envelopes the receive loop appends to `incomingQueue`, in order,
when fed the given chunks from an empty buffer. -/
def decodeStream (chunks : List (List Char)) : List Json :=
  ((feedChunks [] chunks).1.map parseMessages).flatten

/-- Two concrete envelopes used to exercise the framing round trip. -/
def witnessEnvelopes : List Json :=
  [Json.obj [("Sender", .str "A"), ("Destination", .str "B"),
             ("Message", .obj [("type", .str "Data"),
                               ("payload", .obj [("value", .num 42)])])],
   Json.obj [("Sender", .str "EventManager"), ("Destination", .str "All"),
             ("Message", .obj [("type", .str "Stop")])]]

/-- The encoded byte stream of `witnessEnvelopes`. -/
def witnessStream : List Char := (witnessEnvelopes.map encodeEnvelope).flatten

/-- An arbitrary chunking of `witnessStream` (splitting inside both
envelopes). -/
def witnessChunks : List (List Char) :=
  [witnessStream.take 7, (witnessStream.drop 7).take 50, (witnessStream.drop 7).drop 50]

/-! ## Hub dispatch loop (`Communicator._serverSendLoop`) -/

/-- Diagnostics the dispatch loop can log. -/
inductive SLog where
  | sendFailed (name : String)
  | destNotFound (dest : Json)
deriving DecidableEq, Repr

/-- `self.client_sockets.pop(name, None)`: remove the entry of `name` from
the connection table (dict keys are unique, so at most one entry matches). -/
def popKey (table : List (String × Nat)) (k : String) : List (String × Nat) :=
  table.filter (fun kv => kv.1 != k)

/-- The broadcast pass over the snapshot `list(self.client_sockets.items())`:
send to every snapshot entry whose name differs from the envelope's
`Sender` (`if name != sender`, where `sender = message.get("Sender")` may be
any value or `None` = `Json.null`); a failed send logs a warning and pops
that name from the live table.  `sendOk name` is the oracle for whether the
`sock.sendall` for that peer succeeds.  Returns the names delivered to, the
diagnostics, and the final table. -/
def broadcastStep (sendOk : String → Bool) (sender : Json) :
    List (String × Nat) → List (String × Nat) →
    List String × List SLog × List (String × Nat)
  | [], table => ([], [], table)
  | (name, _) :: snap, table =>
    if Json.str name ≠ sender then
      if sendOk name then
        let (d, l, t) := broadcastStep sendOk sender snap table
        (name :: d, l, t)
      else
        let (d, l, t) := broadcastStep sendOk sender snap (popKey table name)
        (d, .sendFailed name :: l, t)
    else
      broadcastStep sendOk sender snap table

/-- One iteration of the dispatch loop on a dequeued work item
`(destination, message)`: broadcast when the destination equals the string
`"All"`, unicast when it equals a connection-table key, else log a
"destination not found" diagnostic and drop the envelope.  The `.error`
case is an uncaught exception (`message.get` on a non-dict), which in the
source breaks the send loop. -/
def serverSendStep (sendOk : String → Bool) (table : List (String × Nat))
    (dest : Json) (message : Json) :
    Except PyErr (List String × List SLog × List (String × Nat)) :=
  if dest = Json.str "All" then
    match message.get "Sender" with
    | .error e => .error e
    | .ok sender => .ok (broadcastStep sendOk sender table table)
  else
    match dest with
    | .str d =>
      if table.any (fun kv => kv.1 == d) then
        if sendOk d then .ok ([d], [], table)
        else .ok ([], [.sendFailed d], popKey table d)
      else .ok ([], [.destNotFound dest], table)
    | _ => .ok ([], [.destNotFound dest], table)

/-! ## Router step (`EventManager.route`) -/

/-- The router state `route` can read or write: the hub Transport's outbound
queue of `(destination, message)` work items, and the `_stopEvent` flag set
by `_handleShutdown`. -/
structure RouterState where
  outgoing : List (Json × Json)
  stopRequested : Bool
deriving DecidableEq, Repr

/-- The diagnostics `route` can log.  Each stands for one `self.log(...)`
call; in the source a log call wraps its text into a `LogMessage` envelope
addressed to `"Logger"` and enqueues it on the same outbound queue, so the
diagnostic stream and the `outgoing` field below together describe every
queue effect; no diagnostic ever forwards the dequeued envelope itself. -/
inductive RLog where
  | registrationHandled (sender : Json)
  | stopReceived (sender : Json)
  | shutdownSignal
  | commandForManager (mtype sender : Json)
  | routing (sender dest : Json)
  | routeError (e : PyErr)
deriving DecidableEq, Repr

/-- The body of `EventManager.route` once a message has been dequeued, in
the `Except` monad for Python exceptions: read `Destination`, `Sender` and
`Message.type` (each `.get` raises `AttributeError` on a non-dict), consume
`register`, handle envelopes addressed to `"EventManager"`, and forward
everything else as a `(destination, message)` work item. -/
def routeBody (s : RouterState) (message : Json) :
    Except PyErr (RouterState × List RLog) :=
  match message.get "Destination" with
  | .error e => .error e
  | .ok destination =>
    match message.get "Sender" with
    | .error e => .error e
    | .ok sender =>
      match message.getD "Message" (.obj []) with
      | .error e => .error e
      | .ok msgField =>
        match msgField.get "type" with
        | .error e => .error e
        | .ok msg_type =>
          if msg_type = Json.str "register" then
            .ok (s, [.registrationHandled sender])
          else if destination = Json.str "EventManager" then
            if msg_type = Json.str "Stop" then
              .ok ({ s with stopRequested := true }, [.stopReceived sender, .shutdownSignal])
            else
              .ok (s, [.commandForManager msg_type sender])
          else
            .ok ({ s with outgoing := s.outgoing ++ [(destination, message)] },
                 [.routing sender destination])

/-- `EventManager.route` with its `except (AttributeError, TypeError)`
handler: those two exception classes are logged and the loop continues; any
other exception would propagate and crash the router loop. -/
def route (s : RouterState) (message : Json) : Except PyErr (RouterState × List RLog) :=
  match routeBody s message with
  | .error .attributeError => .ok (s, [.routeError .attributeError])
  | .error .typeError => .ok (s, [.routeError .typeError])
  | r => r

/-- `queue.Queue(maxsize).put(item)`: appends the item, or would block
(`none`) when a positive `maxsize` is full.  `Communicator.__init__` creates
`incomingQueue` and `outgoingQueue` as `Queue()`, i.e. `maxsize = 0`:
unbounded, so `put` always succeeds. -/
def queuePut (maxsize : Nat) (items : List α) (x : α) : Option (List α) :=
  if maxsize = 0 ∨ items.length < maxsize then some (items ++ [x]) else none

/-- Both queues of `Communicator.__init__` are `Queue()` — `maxsize = 0`. -/
def outgoingQueueMaxsize : Nat := 0

/-! ## Shutdown sequence (`EventManager._cleanup` against `_serverSendLoop`) -/

/-- The `Stop` broadcast built by `EventManager._cleanup`. -/
def stopMessage : Json :=
  .obj [("Sender", .str "EventManager"), ("Destination", .str "All"),
        ("Message", .obj [("type", .str "Stop")])]

/-- The actions `_cleanup` performs, in program order: enqueue the Stop
broadcast, then forcibly terminate each recorded live process. -/
inductive CAct where
  | enqStop
  | term (name : String)
deriving DecidableEq, Repr

/-- Position of the dispatch loop thread: about to test
`stopEvent.is_set()`, inside the body (about to `outgoingQueue.get`), or
exited. -/
inductive SendPC where
  | check
  | body
  | exited
deriving DecidableEq, Repr

/-- Joint state of the cleanup thread and the dispatch-loop thread during
shutdown.  `observed` records the peers the Stop envelope has been sent to;
`terminated` the processes forcibly terminated, in order; `stopEnqueued` is
a history flag set when the broadcast is enqueued. -/
structure ShutState where
  stopFlag : Bool
  queue : List (Json × Json)
  table : List (String × Nat)
  cleanupProg : List CAct
  sendPC : SendPC
  observed : List String
  terminated : List String
  stopEnqueued : Bool
deriving DecidableEq, Repr

/-- Scheduler choice: which thread takes the next step. -/
inductive Thread where
  | cleanupT
  | sendT
deriving DecidableEq, Repr

/-- One interleaving step of the chosen thread (`none` when it has nothing
left to do).  The dispatch loop exits at its `while not stopEvent.is_set()`
test once the flag is set; in the body it dequeues one work item (or times
out on an empty queue) and dispatches it with all sends succeeding. -/
def shutStep (s : ShutState) : Thread → Option ShutState
  | .cleanupT =>
    match s.cleanupProg with
    | [] => none
    | .enqStop :: rest =>
      some { s with queue := s.queue ++ [(Json.str "All", stopMessage)],
                    cleanupProg := rest, stopEnqueued := true }
    | .term n :: rest =>
      some { s with terminated := s.terminated ++ [n], cleanupProg := rest }
  | .sendT =>
    match s.sendPC with
    | .exited => none
    | .check =>
      some (if s.stopFlag then { s with sendPC := .exited } else { s with sendPC := .body })
    | .body =>
      match s.queue with
      | [] => some { s with sendPC := .check }
      | (d, m) :: rest =>
        match serverSendStep (fun _ => true) s.table d m with
        | .ok (delivered, _, table2) =>
          some { s with queue := rest, table := table2,
                        observed := s.observed ++ delivered, sendPC := .check }
        | .error _ => some { s with queue := rest, sendPC := .exited }

/-- Run a whole schedule. -/
def runSched : ShutState → List Thread → Option ShutState
  | s, [] => some s
  | s, t :: ts =>
    match shutStep s t with
    | some s2 => runSched s2 ts
    | none => none

/-- The state at entry to `_cleanup`: the stop flag is already set (the
router loop reaches its `finally` only once `_stopEvent` is set), no peer
has observed the Stop envelope, nothing is terminated; the dispatch thread
may be at its flag test or inside its body. -/
def initShut (names : List String) (table : List (String × Nat)) (pc : SendPC)
    (queue : List (Json × Json)) : ShutState :=
  { stopFlag := true, queue := queue, table := table,
    cleanupProg := .enqStop :: names.map .term, sendPC := pc,
    observed := [], terminated := [], stopEnqueued := false }

/-! ## Server startup (`Communicator._initializeServer` / `Communicator.run`) -/

/-- Diagnostics of server startup. -/
inductive StartLog where
  | serverStarted
  | couldNotStart
deriving DecidableEq, Repr

/-- Observable outcome of the hub's startup control flow. -/
structure ServerStartup where
  bound : Bool
  startupLogs : List StartLog
  sendThreadStarted : Bool
  acceptLoopEntered : Bool
deriving DecidableEq, Repr

/-- `Communicator._initializeServer`: on a successful `bind`+`listen` it
logs "Server started" and starts the `_serverSendLoop` thread; on `OSError`
it logs "Could not start server" and merely returns — without starting the
send thread and without raising.  (That log is itself only enqueued on the
outbound queue, whose consumer is the send thread that is never started.)
Returns (bound, logs, send thread started). -/
def initServer (bindOk : Bool) : Bool × List StartLog × Bool :=
  if bindOk then (true, [.serverStarted], true) else (false, [.couldNotStart], false)

/-- `Communicator.run` for `commType == "server"`: `_initializeServer(stopEvent)`
followed unconditionally by `_runServer(stopEvent)` — the accept loop is
entered whatever `_initializeServer` did. -/
def runServerEntry (bindOk : Bool) : ServerStartup :=
  match initServer bindOk with
  | (b, logs, st) =>
    { bound := b, startupLogs := logs, sendThreadStarted := st, acceptLoopEntered := true }


/-! # Theorems

## Dispatch loop: broadcast and unicast (C1, C6, C8) -/

theorem broadcastStep_all_ok (a : String) (snap table : List (String × Nat)) :
    broadcastStep (fun _ => true) (Json.str a) snap table =
      ((snap.map Prod.fst).filter (fun p => p ≠ a), [], table) := by
  induction snap generalizing table with
  | nil => rfl
  | cons kv snap ih =>
    obtain ⟨name, sock⟩ := kv
    by_cases h : name = a
    · subst h
      simp [broadcastStep, ih]
    · simp [broadcastStep, h, ih]

/-- C1.  For a broadcast work item (destination `"All"`) whose envelope's
`Sender` field is the string `a`, with every send succeeding, the dispatch
loop of `Communicator._serverSendLoop` delivers exactly once to each
connected peer whose name differs from `a`, and zero times to the peer
named `a`; the connection table is unchanged and nothing is logged. -/
theorem broadcast_excludes_sender (table : List (String × Nat)) (message : Json) (a : String)
    (hnd : (table.map Prod.fst).Nodup)
    (hs : message.get "Sender" = .ok (Json.str a)) :
    ∃ delivered,
      serverSendStep (fun _ => true) table (Json.str "All") message =
        .ok (delivered, [], table) ∧
      delivered.count a = 0 ∧
      ∀ p ∈ table.map Prod.fst, p ≠ a → delivered.count p = 1 := by
  refine ⟨(table.map Prod.fst).filter (fun p => p ≠ a), ?_, ?_, ?_⟩
  · simp [serverSendStep, hs, broadcastStep_all_ok]
  · rw [List.count_eq_zero]
    intro hmem
    simp at hmem
  · intro p hp hpa
    rw [List.count_filter (by simpa using hpa)]
    exact List.count_eq_one_of_mem hnd hp

/-- Closed instance of `broadcast_excludes_sender`: peers A, B, C connected,
A broadcasts. -/
theorem broadcast_excludes_sender_witness :
    ∃ delivered,
      serverSendStep (fun _ => true) [("A", 0), ("B", 1), ("C", 2)] (Json.str "All")
          (Json.obj [("Sender", .str "A"), ("Destination", .str "All"),
                     ("Message", .obj [("type", .str "ping")])]) =
        .ok (delivered, [], [("A", 0), ("B", 1), ("C", 2)]) ∧
      delivered.count "A" = 0 ∧
      ∀ p ∈ [("A", 0), ("B", 1), ("C", 2)].map Prod.fst, p ≠ "A" → delivered.count p = 1 :=
  broadcast_excludes_sender [("A", 0), ("B", 1), ("C", 2)] _ "A" (by decide) rfl

/-- C6.  A unicast work item whose destination is a string that is not a
connection-table key (and is not the broadcast token) delivers to nobody,
logs exactly one "destination not found" diagnostic, drops the envelope,
and leaves the table unchanged — for any send oracle and any message. -/
theorem unicast_unknown_dest_noop (sendOk : String → Bool) (table : List (String × Nat))
    (z : String) (message : Json)
    (hz : z ∉ table.map Prod.fst) (hall : z ≠ "All") :
    serverSendStep sendOk table (Json.str z) message =
      .ok ([], [.destNotFound (Json.str z)], table) := by
  have h1 : ¬(Json.str z = Json.str "All") := by simp [hall]
  have h2 : table.any (fun kv => kv.1 == z) = false := by
    rw [List.any_eq_false]
    intro kv hkv
    simp only [beq_iff_eq]
    intro he
    exact hz (he ▸ List.mem_map_of_mem Prod.fst hkv)
  simp [serverSendStep, h1, h2]

/-- Closed instance of `unicast_unknown_dest_noop`: destination "Z" never
registered. -/
theorem unicast_unknown_dest_noop_witness :
    serverSendStep (fun _ => true) [("A", 0), ("B", 1)] (Json.str "Z")
        (Json.obj [("Sender", .str "A"), ("Destination", .str "Z")]) =
      .ok ([], [.destNotFound (Json.str "Z")], [("A", 0), ("B", 1)]) :=
  unicast_unknown_dest_noop (fun _ => true) [("A", 0), ("B", 1)] "Z" _ (by decide) (by decide)

theorem broadcastStep_no_fail_mem (a f : String) (snap table : List (String × Nat))
    (hf : f ∉ snap.map Prod.fst) :
    broadcastStep (fun n => n != f) (Json.str a) snap table =
      ((snap.map Prod.fst).filter (fun p => p ≠ a), [], table) := by
  induction snap generalizing table with
  | nil => rfl
  | cons kv snap ih =>
    obtain ⟨name, sock⟩ := kv
    simp only [List.map_cons, List.mem_cons, not_or] at hf
    by_cases h : name = a
    · subst h
      simp [broadcastStep, ih _ hf.2]
    · have hnf : (name != f) = true := by simpa using fun e => hf.1 e.symm
      simp [broadcastStep, h, hnf, ih _ hf.2]

theorem broadcastStep_one_fail (a f : String) (snap table : List (String × Nat))
    (hnd : (snap.map Prod.fst).Nodup) (hmem : f ∈ snap.map Prod.fst) (hfa : f ≠ a) :
    broadcastStep (fun n => n != f) (Json.str a) snap table =
      ((snap.map Prod.fst).filter (fun p => p ≠ a ∧ p ≠ f),
       [.sendFailed f], popKey table f) := by
  induction snap generalizing table with
  | nil => simp at hmem
  | cons kv snap ih =>
    obtain ⟨name, sock⟩ := kv
    simp only [List.map_cons, List.nodup_cons] at hnd
    by_cases h : name = f
    · subst h
      have hfilter : ∀ tbl, broadcastStep (fun n => n != name) (Json.str a) snap tbl =
          ((snap.map Prod.fst).filter (fun p => p ≠ a), [], tbl) :=
        fun tbl => broadcastStep_no_fail_mem a name snap tbl hnd.1
      simp [broadcastStep, hfa, hfilter]
      apply List.filter_congr
      intro x hx
      have hxn : ¬(x = name) := fun e => hnd.1 (e ▸ hx)
      simp [hxn]
    · have hmem2 : f ∈ snap.map Prod.fst := by
        rcases (by simpa using hmem : f = name ∨ f ∈ snap.map Prod.fst) with h1 | h1
        · exact absurd h1.symm h
        · exact h1
      by_cases hna : name = a
      · subst hna
        simp [broadcastStep, ih _ hnd.2 hmem2]
      · have hnf : (name != f) = true := by simpa using h
        simp [broadcastStep, hna, hnf, h, ih _ hnd.2 hmem2]

/-- C8.  During a broadcast in which exactly the peer `f` fails (and `f` is
not the sender), every other connected non-sender peer is still delivered
to, exactly `f`'s entry is removed from the connection table (it is the
`popKey` of the source's `self.client_sockets.pop`), and every entry other
than `f`'s survives unchanged. -/
theorem broadcast_failure_isolated (table : List (String × Nat)) (message : Json)
    (a f : String)
    (hnd : (table.map Prod.fst).Nodup)
    (hs : message.get "Sender" = .ok (Json.str a))
    (hf : f ∈ table.map Prod.fst) (hfa : f ≠ a) :
    serverSendStep (fun n => n != f) table (Json.str "All") message =
      .ok ((table.map Prod.fst).filter (fun p => p ≠ a ∧ p ≠ f),
           [.sendFailed f], popKey table f) ∧
    (∀ kv ∈ table, kv.1 ≠ f → kv ∈ popKey table f) ∧
    f ∉ (popKey table f).map Prod.fst := by
  refine ⟨?_, ?_, ?_⟩
  · simp [serverSendStep, hs, broadcastStep_one_fail a f table table hnd hf hfa]
  · intro kv hkv hne
    simp [popKey, List.mem_filter, hkv, hne]
  · intro hmem2
    obtain ⟨kv, hkv, hfst⟩ := List.mem_map.mp hmem2
    have hpass := (List.mem_filter.mp hkv).2
    simp [hfst] at hpass

/-- Closed instance of `broadcast_failure_isolated`: A broadcasts, B's send
fails, C is still delivered to and only B's entry is removed. -/
theorem broadcast_failure_isolated_witness :
    serverSendStep (fun n => n != "B") [("A", 0), ("B", 1), ("C", 2)] (Json.str "All")
        (Json.obj [("Sender", .str "A"), ("Destination", .str "All")]) =
      .ok (([("A", 0), ("B", 1), ("C", 2)].map Prod.fst).filter (fun p => p ≠ "A" ∧ p ≠ "B"),
           [.sendFailed "B"], popKey [("A", 0), ("B", 1), ("C", 2)] "B") ∧
    (∀ kv ∈ [("A", 0), ("B", 1), ("C", 2)], kv.1 ≠ "B" →
      kv ∈ popKey [("A", 0), ("B", 1), ("C", 2)] "B") ∧
    "B" ∉ (popKey [("A", 0), ("B", 1), ("C", 2)] "B").map Prod.fst :=
  broadcast_failure_isolated [("A", 0), ("B", 1), ("C", 2)] _ "A" "B"
    (by decide) rfl (by decide) (by decide)

/-! ## Router step (C4, C5, C9, C10) -/

/-- C9.  An inbound envelope whose `Message.type` is `"register"` is
consumed by `EventManager.route` without being forwarded, whatever its
`Destination` — the outbound queue receives no work item and the state is
unchanged; only the "registration handled" diagnostic is logged. -/
theorem register_never_forwarded (s : RouterState) (m dv sv M : Json)
    (hd : m.get "Destination" = .ok dv) (hs : m.get "Sender" = .ok sv)
    (hM : m.getD "Message" (.obj []) = .ok M)
    (ht : M.get "type" = .ok (.str "register")) :
    route s m = .ok (s, [.registrationHandled sv]) := by
  simp [route, routeBody, hd, hs, hM, ht]

/-- Closed instance of `register_never_forwarded` with a register envelope
addressed to an ordinary peer ("B", not the Router). -/
theorem register_never_forwarded_witness :
    route ⟨[], false⟩
        (Json.obj [("Sender", .str "A"), ("Destination", .str "B"),
                   ("Message", .obj [("type", .str "register")])]) =
      .ok (⟨[], false⟩, [.registrationHandled (.str "A")]) :=
  register_never_forwarded ⟨[], false⟩ _ (.str "B") (.str "A")
    (.obj [("type", .str "register")]) rfl rfl rfl rfl

/-- C4 (amended).  The Router maintains no registry: processing a
`register` control message logs a diagnostic and changes no state at all —
in particular it inserts nothing anywhere, is idempotent, never crashes, and
never routes the message further.  (Peer identity is instead recorded by the
Transport's connection table when the peer connects.) -/
theorem register_idempotent_no_insert (s : RouterState) (m dv sv M : Json)
    (hd : m.get "Destination" = .ok dv) (hs : m.get "Sender" = .ok sv)
    (hM : m.getD "Message" (.obj []) = .ok M)
    (ht : M.get "type" = .ok (.str "register")) :
    route s m = .ok (s, [.registrationHandled sv]) ∧
    (∀ s2 logs2, route s m = .ok (s2, logs2) →
      route s2 m = .ok (s2, logs2) ∧ s2 = s) := by
  have h1 : route s m = .ok (s, [.registrationHandled sv]) := by
    simp [route, routeBody, hd, hs, hM, ht]
  refine ⟨h1, ?_⟩
  intro s2 logs2 h2
  rw [h1] at h2
  injection h2 with h3
  injection h3 with ha hb
  subst ha
  subst hb
  exact ⟨h1, rfl⟩

/-- Closed instance of `register_idempotent_no_insert` for a first-ever
registration of "NewPeer". -/
theorem register_idempotent_no_insert_witness :
    route ⟨[], false⟩
        (Json.obj [("Sender", .str "NewPeer"), ("Destination", .str "EventManager"),
                   ("Message", .obj [("type", .str "register")])]) =
      .ok (⟨[], false⟩, [.registrationHandled (.str "NewPeer")]) ∧
    (∀ s2 logs2,
      route ⟨[], false⟩
          (Json.obj [("Sender", .str "NewPeer"), ("Destination", .str "EventManager"),
                     ("Message", .obj [("type", .str "register")])]) = .ok (s2, logs2) →
      route s2
          (Json.obj [("Sender", .str "NewPeer"), ("Destination", .str "EventManager"),
                     ("Message", .obj [("type", .str "register")])]) = .ok (s2, logs2) ∧
      s2 = ⟨[], false⟩) :=
  register_idempotent_no_insert ⟨[], false⟩ _ (.str "EventManager") (.str "NewPeer")
    (.obj [("type", .str "register")]) rfl rfl rfl rfl

/-- C4 counterexample.  The claim says a first `register` for a new name
inserts a new registry entry.  `EventManager` has no registry and
`EventManager.route` changes nothing on a `register` message: the router
state after the first-ever `register` for "NewPeer" is identical to the
state before it (nothing inserted anywhere, nothing enqueued beyond the
diagnostic). -/
theorem register_inserts_nothing_counterexample :
    route ⟨[], false⟩
        (Json.obj [("Sender", .str "NewPeer"), ("Destination", .str "EventManager"),
                   ("Message", .obj [("type", .str "register")])]) =
      .ok (⟨[], false⟩, [.registrationHandled (.str "NewPeer")]) := rfl

/-- C5 counterexample.  An envelope with a missing `Destination` is *not*
dropped by the Router: `EventManager.route` places the work item
`(None, message)` on the hub Transport's outbound queue (the claim says it
is never placed there). -/
theorem missing_destination_enqueued_counterexample :
    route ⟨[], false⟩
        (Json.obj [("Sender", .str "A"), ("Message", .obj [("type", .str "X")])]) =
      .ok (⟨[(Json.null,
              Json.obj [("Sender", .str "A"), ("Message", .obj [("type", .str "X")])])],
             false⟩,
           [.routing (.str "A") .null]) := rfl

/-- C5 (amended).  An inbound envelope whose destination is missing
(`None`) or the empty string is forwarded by the Router like any unicast:
`route` appends `(destination, message)` to the hub's outbound queue, and it
is the dispatch loop that then delivers it to no peer, logs one
"destination not found" diagnostic, and drops it, leaving the connection
table unchanged; both loops continue.  (The accept path never registers an
empty name — `if client_name:` — so `""` is never a table key.) -/
theorem malformed_destination_forwarded_then_dropped (s : RouterState) (m dv sv M mt : Json)
    (table : List (String × Nat)) (sendOk : String → Bool)
    (hd : m.get "Destination" = .ok dv) (hdv : dv = Json.null ∨ dv = Json.str "")
    (hs : m.get "Sender" = .ok sv)
    (hM : m.getD "Message" (.obj []) = .ok M) (ht : M.get "type" = .ok mt)
    (hreg : mt ≠ Json.str "register")
    (hempty : "" ∉ table.map Prod.fst) :
    route s m = .ok ({ s with outgoing := s.outgoing ++ [(dv, m)] }, [.routing sv dv]) ∧
    serverSendStep sendOk table dv m = .ok ([], [.destNotFound dv], table) := by
  constructor
  · have hne : dv ≠ Json.str "EventManager" := by
      rcases hdv with h | h <;> subst h <;> simp
    simp [route, routeBody, hd, hs, hM, ht, hreg, hne]
  · have hany : table.any (fun kv => kv.1 == "") = false := by
      rw [List.any_eq_false]
      intro kv hkv
      simp only [beq_iff_eq]
      intro he
      exact hempty (he ▸ List.mem_map_of_mem Prod.fst hkv)
    rcases hdv with h | h <;> subst h
    · rfl
    · simp [serverSendStep, hany]

/-- Closed instance of `malformed_destination_forwarded_then_dropped`:
missing destination, peers A and B connected. -/
theorem malformed_destination_forwarded_then_dropped_witness :
    route ⟨[], false⟩
        (Json.obj [("Sender", .str "B"), ("Message", .obj [("type", .str "Data")])]) =
      .ok (⟨[(Json.null,
              Json.obj [("Sender", .str "B"), ("Message", .obj [("type", .str "Data")])])],
             false⟩,
           [.routing (.str "B") .null]) ∧
    serverSendStep (fun _ => true) [("A", 0), ("B", 1)] Json.null
        (Json.obj [("Sender", .str "B"), ("Message", .obj [("type", .str "Data")])]) =
      .ok ([], [.destNotFound Json.null], [("A", 0), ("B", 1)]) :=
  malformed_destination_forwarded_then_dropped ⟨[], false⟩ _ Json.null (.str "B")
    (.obj [("type", .str "Data")]) (.str "Data") [("A", 0), ("B", 1)] (fun _ => true)
    rfl (Or.inl rfl) rfl rfl rfl (by decide) (by decide)

theorem get_error_attr (m : Json) (k : String) (e : PyErr)
    (h : m.get k = .error e) : e = .attributeError := by
  cases m <;> simp_all [Json.get, eq_comm]

theorem getD_error_attr (m : Json) (k : String) (d : Json) (e : PyErr)
    (h : m.getD k d = .error e) : e = .attributeError := by
  cases m <;> simp_all [Json.getD, eq_comm]

theorem routeBody_error_attr (s : RouterState) (j : Json) (e : PyErr)
    (h : routeBody s j = .error e) : e = .attributeError := by
  unfold routeBody at h
  split at h
  next e1 heq =>
    injection h with h2
    subst h2
    exact get_error_attr _ _ _ heq
  next dv heq =>
    split at h
    next e1 heq2 =>
      injection h with h2
      subst h2
      exact get_error_attr _ _ _ heq2
    next sv heq2 =>
      split at h
      next e1 heq3 =>
        injection h with h2
        subst h2
        exact getD_error_attr _ _ _ _ heq3
      next M heq3 =>
        split at h
        next e1 heq4 =>
          injection h with h2
          subst h2
          exact get_error_attr _ _ _ heq4
        next mt heq4 =>
          split at h <;> try split at h
          all_goals try split at h
          all_goals exact Except.noConfusion h

/-- C10.  `EventManager.route` never lets an exception escape for any
parsed-JSON inbound item of any shape: every raise point in its body is an
`AttributeError` (a `.get` on a non-dict), which its
`except (AttributeError, TypeError)` handler catches, logging and dropping
the item so the router loop continues; and the outbound `put` it performs
can never block or fail because both queues are created `Queue()` —
unbounded. -/
theorem route_never_raises_and_put_unbounded :
    (∀ (s : RouterState) (j : Json), ∃ r, route s j = .ok r) ∧
    (∀ (q : List (Json × Json)) (x : Json × Json),
      queuePut outgoingQueueMaxsize q x = some (q ++ [x])) := by
  constructor
  · intro s j
    cases hb : routeBody s j with
    | ok r => exact ⟨r, by simp [route, hb]⟩
    | error e =>
      have he := routeBody_error_attr s j e hb
      subst he
      exact ⟨(s, [.routeError .attributeError]), by simp [route, hb]⟩
  · intro q x
    simp [queuePut, outgoingQueueMaxsize]

/-! ## Shutdown ordering (C3) and startup (C7) -/

theorem shutStep_inv (s s2 : ShutState) (t : Thread)
    (hstep : shutStep s t = some s2)
    (inv : s.stopEnqueued = true ∨
      (∃ rest, s.cleanupProg = CAct.enqStop :: rest) ∧ s.terminated = []) :
    s2.stopEnqueued = true ∨
      (∃ rest, s2.cleanupProg = CAct.enqStop :: rest) ∧ s2.terminated = [] := by
  cases t with
  | cleanupT =>
    simp only [shutStep] at hstep
    split at hstep
    · exact absurd hstep (by simp)
    · injection hstep with h2
      subst h2
      exact Or.inl rfl
    · next n rest heq =>
      rcases inv with h1 | ⟨⟨rest2, hprog⟩, hterm⟩
      · injection hstep with h2
        subst h2
        exact Or.inl h1
      · rw [heq] at hprog
        exact absurd (List.head_eq_of_cons_eq hprog) (by simp)
  | sendT =>
    simp only [shutStep] at hstep
    split at hstep
    · exact absurd hstep (by simp)
    · injection hstep with h2
      subst h2
      by_cases hf : s.stopFlag = true <;> simp [hf] <;> tauto
    · split at hstep
      · injection hstep with h2
        subst h2
        exact inv
      · split at hstep
        · injection hstep with h2
          subst h2
          exact inv
        · injection hstep with h2
          subst h2
          exact inv

theorem runSched_inv (sched : List Thread) : ∀ (s s' : ShutState),
    (s.stopEnqueued = true ∨
      (∃ rest, s.cleanupProg = CAct.enqStop :: rest) ∧ s.terminated = []) →
    runSched s sched = some s' →
    s'.stopEnqueued = true ∨
      (∃ rest, s'.cleanupProg = CAct.enqStop :: rest) ∧ s'.terminated = [] := by
  induction sched with
  | nil =>
    intro s s' inv h
    simp only [runSched] at h
    injection h with h2
    subst h2
    exact inv
  | cons t ts ih =>
    intro s s' inv h
    simp only [runSched] at h
    cases hstep : shutStep s t with
    | none => rw [hstep] at h; exact absurd h (by simp)
    | some s2 =>
      rw [hstep] at h
      exact ih s2 s' (shutStep_inv s s2 t hstep inv) h

/-- C3 (amended).  In every interleaved execution of the shutdown sequence
(`EventManager._cleanup` against the dispatch loop), the enqueueing of the
`Stop` broadcast (destination `"All"`, sender `EventManager`) precedes
every forced process termination — forced termination is never the first
shutdown action taken.  (Delivery of the broadcast to the peers before they
are terminated is *not* ensured; see the counterexample.) -/
theorem stop_broadcast_enqueued_before_termination (names : List String)
    (table : List (String × Nat)) (pc : SendPC) (queue : List (Json × Json))
    (sched : List Thread) (s' : ShutState)
    (h : runSched (initShut names table pc queue) sched = some s')
    (hterm : s'.terminated ≠ []) : s'.stopEnqueued = true := by
  have hinv := runSched_inv sched (initShut names table pc queue) s'
    (Or.inr ⟨⟨names.map CAct.term, rfl⟩, rfl⟩) h
  rcases hinv with h1 | ⟨_, h2⟩
  · exact h1
  · exact absurd h2 hterm

/-- Closed instance of `stop_broadcast_enqueued_before_termination`: one
recorded process, cleanup runs to its first termination. -/
theorem stop_broadcast_enqueued_before_termination_witness :
    runSched (initShut ["p1"] [("p1", 0)] SendPC.check []) [Thread.cleanupT, Thread.cleanupT] =
      some { stopFlag := true, queue := [(Json.str "All", stopMessage)], table := [("p1", 0)],
             cleanupProg := [], sendPC := SendPC.check, observed := [],
             terminated := ["p1"], stopEnqueued := true } ∧
    (["p1"] : List String) ≠ [] ∧
    ({ stopFlag := true, queue := [(Json.str "All", stopMessage)], table := [("p1", 0)],
       cleanupProg := [], sendPC := SendPC.check, observed := [],
       terminated := ["p1"], stopEnqueued := true } : ShutState).stopEnqueued = true :=
  ⟨rfl, by simp,
   stop_broadcast_enqueued_before_termination ["p1"] [("p1", 0)] SendPC.check []
     [Thread.cleanupT, Thread.cleanupT] _ rfl (by simp)⟩

/-- C3 counterexample.  A legal interleaving in which the dispatch loop,
whose `while not stopEvent.is_set()` test runs with the stop flag already
set, exits before ever dequeuing the Stop broadcast: both recorded
processes are then forcibly terminated while no peer has observed the Stop
envelope — refuting "with two live peer processes both observe the Stop
envelope before either is forcibly terminated". -/
theorem termination_before_stop_observed_counterexample :
    (runSched (initShut ["p1", "p2"] [("p1", 0), ("p2", 1)] SendPC.check [])
        [Thread.sendT, Thread.cleanupT, Thread.cleanupT, Thread.cleanupT]).map
      (fun s => (s.terminated, s.observed)) = some ((["p1", "p2"] : List String), ([] : List String)) := rfl

/-- C7.  When the hub cannot bind its listening address
(`socket.bind` raises `OSError`), `Communicator._initializeServer` only
logs "Could not start server" and returns, and `Communicator.run` then
still calls `_runServer`: the accept loop is entered with no listening
socket and no dispatch (send) thread — startup is *not* aborted, and the
only trace of the failure is a log envelope on a queue whose consumer
thread was never started. -/
theorem bind_failure_still_enters_accept_loop :
    runServerEntry false =
      { bound := false, startupLogs := [StartLog.couldNotStart],
        sendThreadStarted := false, acceptLoopEntered := true } := rfl

/-! ## Framing lemmas (toward C2) -/

theorem splitNL_append (x y : List Char) :
    splitNL (x ++ y) =
      ((splitNL x).1 ++ (splitNL ((splitNL x).2 ++ y)).1,
       (splitNL ((splitNL x).2 ++ y)).2) := by
  induction x with
  | nil => simp [splitNL]
  | cons c x ih =>
    by_cases hc : c = '\n'
    · subst hc
      have h1 : splitNL (('\n' :: x) ++ y) =
          ([] :: (splitNL (x ++ y)).1, (splitNL (x ++ y)).2) := by
        simp [splitNL]
      have h2 : splitNL ('\n' :: x) = ([] :: (splitNL x).1, (splitNL x).2) := by
        simp [splitNL]
      rw [h1, h2, ih]
      simp
    · rcases hx : splitNL x with ⟨sx, rx⟩
      rw [hx] at ih
      dsimp only at ih
      have h1 : splitNL ((c :: x) ++ y) =
          (match splitNL (x ++ y) with
           | ([], r) => ([], c :: r)
           | (s :: ss2, r) => ((c :: s) :: ss2, r)) := by
        simp [splitNL, hc]
      have h2 : splitNL (c :: x) =
          (match splitNL x with
           | ([], r) => ([], c :: r)
           | (s :: ss2, r) => ((c :: s) :: ss2, r)) := by
        simp [splitNL, hc]
      rw [h1, h2, ih, hx]
      cases sx with
      | nil =>
        rcases hy : splitNL (rx ++ y) with ⟨sy, ry⟩
        cases sy with
        | nil => simp [splitNL, hc, hy]
        | cons s ss => simp [splitNL, hc, hy]
      | cons s ss =>
        rcases hy : splitNL (rx ++ y) with ⟨sy, ry⟩
        simp [splitNL, hc, hy]

theorem splitNL_no_nl (t : List Char) (h : '\n' ∉ t) : splitNL t = ([], t) := by
  induction t with
  | nil => rfl
  | cons c t ih =>
    simp only [List.mem_cons, not_or] at h
    have hc : ¬(c = '\n') := fun e => h.1 e.symm
    simp [splitNL, hc, ih h.2]

theorem splitNL_unit (u y : List Char) (hu : '\n' ∉ u) :
    splitNL (u ++ '\n' :: y) = (u :: (splitNL y).1, (splitNL y).2) := by
  induction u with
  | nil => simp [splitNL]
  | cons c u ih =>
    simp only [List.mem_cons, not_or] at hu
    have hc : ¬(c = '\n') := fun e => hu.1 e.symm
    simp [splitNL, hc, ih hu.2]

theorem splitNL_rem_no_nl (b : List Char) : '\n' ∉ (splitNL b).2 := by
  induction b with
  | nil => simp [splitNL]
  | cons c b ih =>
    by_cases hc : c = '\n'
    · subst hc
      simp [splitNL, ih]
    · rcases hb : splitNL b with ⟨sb, rb⟩
      rw [hb] at ih
      cases sb with
      | nil =>
        simp [splitNL, hc, hb]
        exact ⟨fun e => hc e.symm, ih⟩
      | cons s ss => simp [splitNL, hc, hb, ih]

theorem feedChunks_extract (chunks : List (List Char)) : ∀ (buf : List Char),
    '\n' ∉ buf → (∀ d ∈ chunks, d ≠ []) →
    feedChunks buf chunks = extractUnits (buf ++ chunks.flatten) := by
  induction chunks with
  | nil =>
    intro buf hb _
    simp [feedChunks, extractUnits, splitNL_no_nl buf hb]
  | cons d ds ih =>
    intro buf hb hne
    have hd : ¬d.isEmpty := by
      simp only [List.isEmpty_iff]
      exact hne d (List.mem_cons_self d ds)
    have hne2 : ∀ d2 ∈ ds, d2 ≠ [] := fun d2 h2 => hne d2 (List.mem_cons_of_mem d h2)
    have hb1 : '\n' ∉ (splitNL (buf ++ d)).2 := splitNL_rem_no_nl (buf ++ d)
    simp only [feedChunks, hd, Bool.false_eq_true, if_false, extractUnits]
    rw [ih (splitNL (buf ++ d)).2 hb1 hne2]
    simp only [extractUnits, List.flatten_cons, ← List.append_assoc]
    rw [splitNL_append (buf ++ d) ds.flatten]
    simp [List.filter_append]

/-! ## Character, digit and hex lemmas (toward C2) -/

theorem toNat_ofNat_valid {n : Nat} (h : n.isValidChar) : (Char.ofNat n).toNat = n := by
  rw [Char.ofNat, dif_pos h]
  rfl

theorem toNat_ofNat_lt {n : Nat} (h : n < 55296) : (Char.ofNat n).toNat = n :=
  toNat_ofNat_valid (Or.inl h)

theorem char_ne_of_toNat_ne {c d : Char} (h : c.toNat ≠ d.toNat) : c ≠ d :=
  fun e => h (congrArg Char.toNat e)

theorem char_valid (c : Char) :
    c.toNat < 55296 ∨ (57343 < c.toNat ∧ c.toNat < 1114112) := c.valid

theorem digitChar_toNat {d : Nat} (h : d < 10) : (digitChar d).toNat = 48 + d :=
  toNat_ofNat_lt (by omega)

theorem hexDigitChar_toNat_lo {d : Nat} (h : d < 10) : (hexDigitChar d).toNat = 48 + d := by
  rw [hexDigitChar, if_pos h]
  exact toNat_ofNat_lt (by omega)

theorem hexDigitChar_toNat_hi {d : Nat} (h10 : ¬d < 10) (h : d < 16) :
    (hexDigitChar d).toNat = 87 + d := by
  rw [hexDigitChar, if_neg h10]
  exact toNat_ofNat_lt (by omega)

theorem hexVal_hexDigitChar {d : Nat} (h : d < 16) : hexVal (hexDigitChar d) = some d := by
  by_cases h10 : d < 10
  · rw [hexVal, hexDigitChar_toNat_lo h10, if_pos (by omega)]
    congr 1
    omega
  · rw [hexVal, hexDigitChar_toNat_hi h10 h, if_neg (by omega), if_pos (by omega)]
    congr 1
    omega

theorem hex4Val_hex4 {n : Nat} (h : n < 65536) :
    hex4Val (hexDigitChar (n / 4096 % 16)) (hexDigitChar (n / 256 % 16))
      (hexDigitChar (n / 16 % 16)) (hexDigitChar (n % 16)) = some n := by
  rw [hex4Val, hexVal_hexDigitChar (Nat.mod_lt _ (by omega)),
      hexVal_hexDigitChar (Nat.mod_lt _ (by omega)),
      hexVal_hexDigitChar (Nat.mod_lt _ (by omega)),
      hexVal_hexDigitChar (Nat.mod_lt _ (by omega))]
  dsimp only
  congr 1
  omega


theorem parseStringBody_u_bmp (m : Nat) (r : List Char)
    (hv : m < 55296 ∨ (57343 < m ∧ m < 65536)) :
    parseStringBody (('\\' :: 'u' :: hex4 m) ++ r) =
      consFst (Char.ofNat m) (parseStringBody r) := by
  have hm : m < 65536 := by rcases hv with h | h <;> omega
  have hcond : m < 55296 ∨ 57343 < m := by
    rcases hv with h | h
    · exact Or.inl h
    · exact Or.inr h.1
  simp only [hex4, List.cons_append, List.nil_append]
  rw [parseStringBody, if_neg (by decide), if_pos rfl, parseEsc,
      if_neg (by decide), if_neg (by decide), if_neg (by decide), if_neg (by decide),
      if_neg (by decide), if_neg (by decide), if_neg (by decide), if_neg (by decide),
      if_pos rfl, parseU, hex4Val_hex4 hm]
  dsimp only
  rw [if_pos hcond]

theorem parseStringBody_u_pair (v : Nat) (r : List Char) (hv : v < 1048576) :
    parseStringBody (('\\' :: 'u' :: hex4 (55296 + v / 1024)) ++
        (('\\' :: 'u' :: hex4 (56320 + v % 1024)) ++ r)) =
      consFst (Char.ofNat (65536 + v)) (parseStringBody r) := by
  have hdiv : v / 1024 < 1024 := by omega
  have hmod : v % 1024 < 1024 := Nat.mod_lt _ (by omega)
  have hhi : 55296 + v / 1024 < 65536 := by omega
  have hlo : 56320 + v % 1024 < 65536 := by omega
  simp only [hex4, List.cons_append, List.nil_append]
  rw [parseStringBody, if_neg (by decide), if_pos rfl, parseEsc,
      if_neg (by decide), if_neg (by decide), if_neg (by decide), if_neg (by decide),
      if_neg (by decide), if_neg (by decide), if_neg (by decide), if_neg (by decide),
      if_pos rfl, parseU, hex4Val_hex4 hhi]
  dsimp only
  rw [if_neg (by omega), if_pos (by omega), parseLow, if_pos ⟨rfl, rfl⟩,
      hex4Val_hex4 hlo]
  dsimp only
  rw [if_pos (by omega)]
  have harith : 65536 + (55296 + v / 1024 - 55296) * 1024 + (56320 + v % 1024 - 56320) =
      65536 + v := by
    have := Nat.div_add_mod v 1024
    omega
  rw [harith]

theorem parseStringBody_escChar (c : Char) (r : List Char) :
    parseStringBody (escChar c ++ r) = consFst c (parseStringBody r) := by
  by_cases h1 : c = '"'
  · subst h1; rfl
  by_cases h2 : c = '\\'
  · subst h2; rfl
  by_cases h3 : c = '\n'
  · subst h3; rfl
  by_cases h4 : c = '\r'
  · subst h4; rfl
  by_cases h5 : c = '\t'
  · subst h5; rfl
  by_cases h6 : c.toNat = 8
  · have e8 : Char.ofNat 8 = c := by rw [← h6, Char.ofNat_toNat]
    rw [escChar, if_neg h1, if_neg h2, if_neg h3, if_neg h4, if_neg h5, if_pos h6]
    show consFst (Char.ofNat 8) (parseStringBody r) = consFst c (parseStringBody r)
    rw [e8]
  by_cases h7 : c.toNat = 12
  · have e12 : Char.ofNat 12 = c := by rw [← h7, Char.ofNat_toNat]
    rw [escChar, if_neg h1, if_neg h2, if_neg h3, if_neg h4, if_neg h5, if_neg h6,
        if_pos h7]
    show consFst (Char.ofNat 12) (parseStringBody r) = consFst c (parseStringBody r)
    rw [e12]
  by_cases h8 : c.toNat < 32
  · rw [escChar, if_neg h1, if_neg h2, if_neg h3, if_neg h4, if_neg h5, if_neg h6,
        if_neg h7, if_pos h8]
    rw [parseStringBody_u_bmp _ _ (Or.inl (by omega)), Char.ofNat_toNat]
  by_cases h9 : c.toNat < 127
  · rw [escChar, if_neg h1, if_neg h2, if_neg h3, if_neg h4, if_neg h5, if_neg h6,
        if_neg h7, if_neg h8, if_pos h9]
    show parseStringBody (c :: r) = consFst c (parseStringBody r)
    rw [parseStringBody, if_neg h1, if_neg h2, if_neg h8]
  by_cases h10 : c.toNat < 65536
  · have hv : c.toNat < 55296 ∨ (57343 < c.toNat ∧ c.toNat < 65536) := by
      rcases char_valid c with h | ⟨hgt, _⟩
      · exact Or.inl h
      · exact Or.inr ⟨hgt, h10⟩
    rw [escChar, if_neg h1, if_neg h2, if_neg h3, if_neg h4, if_neg h5, if_neg h6,
        if_neg h7, if_neg h8, if_neg h9, if_pos h10]
    rw [parseStringBody_u_bmp _ _ hv, Char.ofNat_toNat]
  · have hlt : c.toNat - 65536 < 1048576 := by
      rcases char_valid c with h | ⟨_, hlt⟩
      · omega
      · omega
    rw [escChar, if_neg h1, if_neg h2, if_neg h3, if_neg h4, if_neg h5, if_neg h6,
        if_neg h7, if_neg h8, if_neg h9, if_neg h10]
    simp only [List.append_assoc]
    rw [parseStringBody_u_pair _ _ hlt]
    have harith : 65536 + (c.toNat - 65536) = c.toNat := by omega
    rw [harith, Char.ofNat_toNat]

theorem parseStringBody_flatten (l r : List Char) :
    parseStringBody ((l.map escChar).flatten ++ '"' :: r) = some (l, r) := by
  induction l with
  | nil => rfl
  | cons c l ih =>
    simp only [List.map_cons, List.flatten_cons, List.append_assoc]
    rw [parseStringBody_escChar, ih]
    rfl

/-! ## Digit and number lemmas -/

theorem digitChar_isDigit {d : Nat} (h : d < 10) : isDigitCh (digitChar d) = true := by
  simp only [isDigitCh, digitChar_toNat h]
  simp
  omega

theorem natDigitsAux_isDigit (fuel : Nat) : ∀ n, n ≤ fuel →
    ∀ c ∈ natDigitsAux fuel n, isDigitCh c = true := by
  induction fuel with
  | zero =>
    intro n hn c hc
    have h0 : n = 0 := Nat.le_zero.mp hn
    subst h0
    simp only [natDigitsAux, List.mem_singleton] at hc
    subst hc
    exact digitChar_isDigit (by omega)
  | succ fuel ih =>
    intro n hn c hc
    by_cases h : n < 10
    · rw [natDigitsAux, if_pos h] at hc
      simp only [List.mem_singleton] at hc
      subst hc
      exact digitChar_isDigit h
    · rw [natDigitsAux, if_neg h] at hc
      rcases List.mem_cons.mp hc with h1 | h1
      · subst h1
        exact digitChar_isDigit (Nat.mod_lt _ (by omega))
      · exact ih (n / 10) (by omega) c h1

theorem natRepr_isDigit (n : Nat) : ∀ c ∈ natRepr n, isDigitCh c = true := by
  intro c hc
  rw [natRepr, natToDigitsRev, List.mem_reverse] at hc
  exact natDigitsAux_isDigit n n le_rfl c hc

theorem natDigitsAux_ne_nil (fuel n : Nat) : natDigitsAux fuel n ≠ [] := by
  cases fuel with
  | zero => simp [natDigitsAux]
  | succ fuel =>
    rw [natDigitsAux]
    split <;> simp

theorem natRepr_ne_nil (n : Nat) : natRepr n ≠ [] := by
  rw [natRepr, natToDigitsRev]
  simp [natDigitsAux_ne_nil]

theorem digitsToNat_append (xs : List Char) (c : Char) :
    digitsToNat (xs ++ [c]) = 10 * digitsToNat xs + (c.toNat - 48) := by
  simp [digitsToNat, List.foldl_append]

theorem digitsToNat_natDigitsAux (fuel : Nat) : ∀ n, n ≤ fuel →
    digitsToNat ((natDigitsAux fuel n).reverse) = n := by
  induction fuel with
  | zero =>
    intro n hn
    have h0 : n = 0 := Nat.le_zero.mp hn
    subst h0
    rfl
  | succ fuel ih =>
    intro n hn
    by_cases h : n < 10
    · rw [natDigitsAux, if_pos h]
      simp only [List.reverse_singleton]
      show digitsToNat ([] ++ [digitChar n]) = n
      rw [digitsToNat_append, digitChar_toNat h]
      simp [digitsToNat]
    · rw [natDigitsAux, if_neg h, List.reverse_cons, digitsToNat_append,
          ih (n / 10) (by omega), digitChar_toNat (Nat.mod_lt _ (by omega))]
      omega

theorem digitsToNat_natRepr (n : Nat) : digitsToNat (natRepr n) = n :=
  digitsToNat_natDigitsAux n n le_rfl

theorem takeDigits_spec (ds : List Char) : ∀ (r : List Char),
    (∀ c ∈ ds, isDigitCh c = true) → numOk r = true →
    takeDigits (ds ++ r) = (ds, r) := by
  induction ds with
  | nil =>
    intro r _ hr
    cases r with
    | nil => rfl
    | cons c r2 =>
      have : isDigitCh c = false := by simpa [numOk] using hr
      simp [takeDigits, this]
  | cons c ds ih =>
    intro r hds hr
    have hc : isDigitCh c = true := hds c (List.mem_cons_self c ds)
    have ih2 := ih r (fun d hd => hds d (List.mem_cons_of_mem c hd)) hr
    simp only [List.cons_append, takeDigits, hc, if_true]
    rw [show ds.append r = ds ++ r from rfl, ih2]

/-! ## Whitespace and head-character lemmas -/

theorem skipWs_cons_not_ws {c : Char} (h : isWs c = false) (r : List Char) :
    skipWs (c :: r) = c :: r := by
  simp [skipWs, List.dropWhile_cons, h]

theorem parseValue_ws (fuel : Nat) (z : List Char) :
    parseValue fuel (' ' :: z) = parseValue fuel z := by
  cases fuel with
  | zero => rfl
  | succ g =>
    have hws : skipWs (' ' :: z) = skipWs z := by simp [skipWs, List.dropWhile_cons, isWs]
    rw [parseValue, parseValue, hws]

theorem parseMembers_ws (fuel : Nat) (z : List Char) :
    parseMembers fuel (' ' :: z) = parseMembers fuel z := by
  cases fuel with
  | zero => rfl
  | succ g =>
    have hws : skipWs (' ' :: z) = skipWs z := by simp [skipWs, List.dropWhile_cons, isWs]
    rw [parseMembers, parseMembers, hws]

theorem digit_head_props {c : Char} (h : isDigitCh c = true) : isWs c = false ∧ c ≠ ']' := by
  have h48 : 48 ≤ c.toNat ∧ c.toNat ≤ 57 := by simpa [isDigitCh] using h
  refine ⟨?_, ?_⟩
  · have e1 : c ≠ ' ' := char_ne_of_toNat_ne (by rw [show (' ' : Char).toNat = 32 from rfl]; omega)
    have e2 : c ≠ '\t' := char_ne_of_toNat_ne (by rw [show ('\t' : Char).toNat = 9 from rfl]; omega)
    have e3 : c ≠ '\n' := char_ne_of_toNat_ne (by rw [show ('\n' : Char).toNat = 10 from rfl]; omega)
    have e4 : c ≠ '\r' := char_ne_of_toNat_ne (by rw [show ('\r' : Char).toNat = 13 from rfl]; omega)
    simp [isWs, e1, e2, e3, e4]
  · exact char_ne_of_toNat_ne (by rw [show (']' : Char).toNat = 93 from rfl]; omega)

theorem dumps_cons (v : Json) :
    ∃ c cs, Json.dumps v = c :: cs ∧ isWs c = false ∧ c ≠ ']' := by
  cases v with
  | null => exact ⟨'n', _, rfl, by decide, by decide⟩
  | bool b =>
    cases b with
    | true => exact ⟨'t', _, rfl, by decide, by decide⟩
    | false => exact ⟨'f', _, rfl, by decide, by decide⟩
  | num n =>
    show ∃ c cs, intRepr n = c :: cs ∧ _
    rw [intRepr]
    by_cases h : n < 0
    · rw [if_pos h]
      exact ⟨'-', _, rfl, by decide, by decide⟩
    · rw [if_neg h]
      cases hnr : natRepr n.toNat with
      | nil => exact absurd hnr (natRepr_ne_nil _)
      | cons c cs =>
        have hc : isDigitCh c = true :=
          natRepr_isDigit n.toNat c (hnr ▸ List.mem_cons_self c cs)
        exact ⟨c, cs, rfl, (digit_head_props hc).1, (digit_head_props hc).2⟩
  | str s => exact ⟨'"', _, rfl, by decide, by decide⟩
  | arr xs =>
    cases xs with
    | nil => exact ⟨'[', _, rfl, by decide, by decide⟩
    | cons x xs => exact ⟨'[', _, rfl, by decide, by decide⟩
  | obj kvs =>
    cases kvs with
    | nil => exact ⟨lbrace, _, rfl, by decide, by decide⟩
    | cons kv kvs => exact ⟨lbrace, _, rfl, by decide, by decide⟩

theorem numOk_arrTail (xs : List Json) (rest : List Char) :
    numOk (dumpsArrTail xs ++ ']' :: rest) = true := by
  cases xs <;> rfl

theorem numOk_objTail (kvs : List (String × Json)) (rest : List Char) :
    numOk (dumpsObjTail kvs ++ rbrace :: rest) = true := by
  cases kvs <;> rfl

/-! ## `dumps` output facts -/

theorem digit_ne_nl {c : Char} (h : isDigitCh c = true) : c ≠ '\n' := by
  intro he
  have := (digit_head_props h).1
  rw [he] at this
  simp [isWs] at this

theorem natRepr_no_nl (n : Nat) : '\n' ∉ natRepr n := by
  intro h
  exact digit_ne_nl (natRepr_isDigit n '\n' h) rfl

theorem intRepr_no_nl (n : Int) : '\n' ∉ intRepr n := by
  rw [intRepr]
  split_ifs
  · simp only [List.mem_cons, not_or]
    exact ⟨by decide, natRepr_no_nl _⟩
  · exact natRepr_no_nl _

theorem intRepr_ne_nil (n : Int) : intRepr n ≠ [] := by
  rw [intRepr]
  split_ifs
  · simp
  · exact natRepr_ne_nil _

theorem hexDigitChar_ne_nl {d : Nat} (h : d < 16) : hexDigitChar d ≠ '\n' := by
  by_cases h10 : d < 10
  · exact char_ne_of_toNat_ne
      (by rw [hexDigitChar_toNat_lo h10, show ('\n' : Char).toNat = 10 from rfl]; omega)
  · exact char_ne_of_toNat_ne
      (by rw [hexDigitChar_toNat_hi h10 h, show ('\n' : Char).toNat = 10 from rfl]; omega)

theorem hex4_no_nl (m : Nat) : '\n' ∉ hex4 m := by
  simp only [hex4, List.mem_cons, List.not_mem_nil, or_false, not_or]
  refine ⟨?_, ?_, ?_, ?_⟩ <;>
    exact fun h => hexDigitChar_ne_nl (Nat.mod_lt _ (by omega)) h.symm

theorem escChar_no_nl (c : Char) : '\n' ∉ escChar c := by
  by_cases h1 : c = '"'
  · subst h1; decide
  by_cases h2 : c = '\\'
  · subst h2; decide
  by_cases h3 : c = '\n'
  · subst h3; decide
  by_cases h4 : c = '\r'
  · subst h4; decide
  by_cases h5 : c = '\t'
  · subst h5; decide
  rw [escChar, if_neg h1, if_neg h2, if_neg h3, if_neg h4, if_neg h5]
  by_cases h6 : c.toNat = 8
  · rw [if_pos h6]; decide
  rw [if_neg h6]
  by_cases h7 : c.toNat = 12
  · rw [if_pos h7]; decide
  rw [if_neg h7]
  by_cases h8 : c.toNat < 32
  · rw [if_pos h8]
    simp only [List.mem_cons, not_or]
    exact ⟨by decide, by decide, hex4_no_nl _⟩
  rw [if_neg h8]
  by_cases h9 : c.toNat < 127
  · rw [if_pos h9]
    simp only [List.mem_singleton]
    intro he
    exact h8 (by rw [← he]; decide)
  rw [if_neg h9]
  by_cases h10 : c.toNat < 65536
  · rw [if_pos h10]
    simp only [List.mem_cons, not_or]
    exact ⟨by decide, by decide, hex4_no_nl _⟩
  · rw [if_neg h10]
    simp only [List.cons_append, List.mem_cons, List.mem_append, not_or]
    repeat' apply And.intro
    all_goals first | exact hex4_no_nl _ | decide

theorem escString_no_nl (s : String) : '\n' ∉ escString s := by
  rw [escString]
  intro hmem
  rcases List.mem_cons.mp hmem with h | h
  · exact absurd h (by decide)
  rcases List.mem_append.mp h with h | h
  · rcases List.mem_flatten.mp h with ⟨l, hl, hnl⟩
    rcases List.mem_map.mp hl with ⟨c, _, he⟩
    exact escChar_no_nl c (he ▸ hnl)
  · exact absurd (List.mem_singleton.mp h) (by decide)

theorem escString_ne_nil (s : String) : escString s ≠ [] := by
  simp [escString]

mutual
theorem dumps_no_nl : ∀ v : Json, '\n' ∉ Json.dumps v
  | .null => by decide
  | .bool true => by decide
  | .bool false => by decide
  | .num n => intRepr_no_nl n
  | .str s => escString_no_nl s
  | .arr [] => by decide
  | .arr (x :: xs) => by
    show '\n' ∉ '[' :: (Json.dumps x ++ dumpsArrTail xs) ++ [']']
    simp only [List.cons_append, List.mem_cons, List.mem_append, not_or,
      List.mem_singleton]
    repeat' apply And.intro
    all_goals first | exact dumps_no_nl x | exact dumpsArrTail_no_nl xs | decide
  | .obj [] => by decide
  | .obj (kv :: kvs) => by
    show '\n' ∉ lbrace ::
      (escString kv.1 ++ ':' :: ' ' :: Json.dumps kv.2 ++ dumpsObjTail kvs) ++ [rbrace]
    simp only [List.cons_append, List.mem_cons, List.mem_append, not_or,
      List.mem_singleton]
    repeat' apply And.intro
    all_goals first | exact escString_no_nl kv.1 | exact dumps_no_nl kv.2 |
      exact dumpsObjTail_no_nl kvs | decide

theorem dumpsArrTail_no_nl : ∀ xs : List Json, '\n' ∉ dumpsArrTail xs
  | [] => by decide
  | x :: xs => by
    show '\n' ∉ ',' :: ' ' :: (Json.dumps x ++ dumpsArrTail xs)
    simp only [List.mem_cons, List.mem_append, not_or]
    exact ⟨by decide, by decide, dumps_no_nl x, dumpsArrTail_no_nl xs⟩

theorem dumpsObjTail_no_nl : ∀ kvs : List (String × Json), '\n' ∉ dumpsObjTail kvs
  | [] => by decide
  | kv :: kvs => by
    show '\n' ∉ ',' :: ' ' :: (escString kv.1 ++ ':' :: ' ' :: Json.dumps kv.2 ++ dumpsObjTail kvs)
    simp only [List.mem_cons, List.mem_append, not_or]
    repeat' apply And.intro
    all_goals first | exact escString_no_nl kv.1 | exact dumps_no_nl kv.2 |
      exact dumpsObjTail_no_nl kvs | decide
end

theorem dumps_ne_nil (v : Json) : Json.dumps v ≠ [] := by
  rcases dumps_cons v with ⟨c, cs, h, _, _⟩
  simp [h]

/-! ## Size bounds and dict lemmas -/

theorem escString_len_ge (s : String) : 2 ≤ (escString s).length := by
  simp [escString]

mutual
theorem sizeJ_le : ∀ v : Json, sizeJ v ≤ 2 * (Json.dumps v).length
  | .null => by simp [sizeJ, Json.dumps, nullLit]
  | .bool true => by simp [sizeJ, Json.dumps, trueLit]
  | .bool false => by simp [sizeJ, Json.dumps, falseLit]
  | .num n => by
    have h := intRepr_ne_nil n
    show sizeJ (.num n) ≤ 2 * (intRepr n).length
    have : 1 ≤ (intRepr n).length := by
      cases hr : intRepr n with
      | nil => exact absurd hr h
      | cons c cs => simp
    simp [sizeJ]
    omega
  | .str s => by
    have h := escString_len_ge s
    show sizeJ (.str s) ≤ 2 * (escString s).length
    simp [sizeJ]
    omega
  | .arr [] => by simp [sizeJ, sizeItems, Json.dumps]
  | .arr (x :: xs) => by
    have h1 := sizeJ_le x
    have h2 := sizeItems_le xs
    show 2 + sizeItems (x :: xs) ≤
      2 * ('[' :: (Json.dumps x ++ dumpsArrTail xs) ++ [']']).length
    simp only [sizeItems, List.length_append, List.length_cons, List.length_singleton]
    omega
  | .obj [] => by simp [sizeJ, sizeMembers, Json.dumps]
  | .obj (kv :: kvs) => by
    have h1 := sizeJ_le kv.2
    have h2 := sizeMembers_le kvs
    have h3 := escString_len_ge kv.1
    show 2 + sizeMembers (kv :: kvs) ≤
      2 * (lbrace ::
        (escString kv.1 ++ ':' :: ' ' :: Json.dumps kv.2 ++ dumpsObjTail kvs) ++ [rbrace]).length
    simp only [sizeMembers, List.length_append, List.length_cons, List.length_singleton]
    omega

theorem sizeItems_le : ∀ xs : List Json, sizeItems xs ≤ 2 * (dumpsArrTail xs).length
  | [] => by simp [sizeItems, dumpsArrTail]
  | x :: xs => by
    have h1 := sizeJ_le x
    have h2 := sizeItems_le xs
    show 1 + sizeJ x + sizeItems xs ≤
      2 * (',' :: ' ' :: (Json.dumps x ++ dumpsArrTail xs)).length
    simp only [List.length_cons, List.length_append]
    omega

theorem sizeMembers_le : ∀ kvs : List (String × Json),
    sizeMembers kvs ≤ 2 * (dumpsObjTail kvs).length
  | [] => by simp [sizeMembers, dumpsObjTail]
  | kv :: kvs => by
    have h1 := sizeJ_le kv.2
    have h2 := sizeMembers_le kvs
    have h3 := escString_len_ge kv.1
    show 1 + sizeJ kv.2 + sizeMembers kvs ≤
      2 * (',' :: ' ' :: (escString kv.1 ++ ':' :: ' ' :: Json.dumps kv.2 ++ dumpsObjTail kvs)).length
    simp only [List.length_cons, List.length_append]
    omega
end

theorem nodupKeys_iff (l : List String) : nodupKeys l = true ↔ l.Nodup := by
  induction l with
  | nil => simp [nodupKeys]
  | cons k ks ih =>
    rw [nodupKeys, List.nodup_cons]
    simp only [Bool.and_eq_true, Bool.not_eq_true']
    rw [ih]
    constructor
    · rintro ⟨h1, h2⟩
      refine ⟨fun hmem => ?_, h2⟩
      have he := List.elem_eq_true_of_mem hmem
      rw [show List.elem k ks = ks.contains k from rfl, h1] at he
      cases he
    · rintro ⟨h1, h2⟩
      refine ⟨?_, h2⟩
      by_contra hc
      rw [Bool.not_eq_false] at hc
      exact h1 (List.mem_of_elem_eq_true hc)

theorem dictInsert_fresh (acc : List (String × Json)) (k : String) (v : Json)
    (h : k ∉ acc.map Prod.fst) : dictInsert acc k v = acc ++ [(k, v)] := by
  rw [dictInsert, if_neg]
  intro hany
  rcases List.any_eq_true.mp hany with ⟨kv, hkv, he⟩
  rw [beq_iff_eq] at he
  exact h (he ▸ List.mem_map_of_mem Prod.fst hkv)

theorem foldl_dictInsert (pairs : List (String × Json)) : ∀ acc,
    ((acc ++ pairs).map Prod.fst).Nodup →
    pairs.foldl (fun a kv => dictInsert a kv.1 kv.2) acc = acc ++ pairs := by
  induction pairs with
  | nil =>
    intro acc _
    simp
  | cons kv pairs ih =>
    intro acc hnd
    have hk : kv.1 ∉ acc.map Prod.fst := by
      intro hmem
      rw [List.map_append] at hnd
      rcases (List.nodup_append.mp hnd) with ⟨_, _, hdisj⟩
      exact hdisj hmem (by simp)
    rw [List.foldl_cons, dictInsert_fresh acc kv.1 kv.2 hk, ih]
    · simp
    · simpa using hnd

theorem buildDict_nodup (pairs : List (String × Json))
    (h : (pairs.map Prod.fst).Nodup) : buildDict pairs = pairs := by
  have := foldl_dictInsert pairs [] (by simpa using h)
  simpa [buildDict] using this

theorem sizeJ_pos (v : Json) : 1 ≤ sizeJ v := by
  cases v <;> simp [sizeJ] <;> omega

theorem parseItems_ws (fuel : Nat) (z : List Char) :
    parseItems fuel (' ' :: z) = parseItems fuel z := by
  cases fuel with
  | zero => rfl
  | succ g => rw [parseItems, parseItems, parseValue_ws]

theorem parseValue_minus (g : Nat) (t : List Char) :
    parseValue (g + 1) ('-' :: t) =
      (match takeDigits t with
       | ([], _) => none
       | (ds, r) => some (.num (-(digitsToNat ds : Int)), r)) := rfl

theorem digit_ne_lits {c : Char} (hc : isDigitCh c = true) :
    c ≠ 'n' ∧ c ≠ 't' ∧ c ≠ 'f' ∧ c ≠ '"' ∧ c ≠ '[' ∧ c ≠ lbrace ∧ c ≠ '-' := by
  have h48 : 48 ≤ c.toNat ∧ c.toNat ≤ 57 := by simpa [isDigitCh] using hc
  refine ⟨?_, ?_, ?_, ?_, ?_, ?_, ?_⟩ <;>
    exact char_ne_of_toNat_ne (by
      first
      | rw [show ('n' : Char).toNat = 110 from rfl]; omega
      | rw [show ('t' : Char).toNat = 116 from rfl]; omega
      | rw [show ('f' : Char).toNat = 102 from rfl]; omega
      | rw [show ('"' : Char).toNat = 34 from rfl]; omega
      | rw [show ('[' : Char).toNat = 91 from rfl]; omega
      | rw [show lbrace.toNat = 123 from rfl]; omega
      | rw [show ('-' : Char).toNat = 45 from rfl]; omega)

theorem parseValue_digit (g : Nat) (c : Char) (t : List Char) (hc : isDigitCh c = true) :
    parseValue (g + 1) (c :: t) =
      (match takeDigits (c :: t) with
       | (ds, r) => some (.num (digitsToNat ds : Int), r)) := by
  obtain ⟨hws, _⟩ := digit_head_props hc
  obtain ⟨hn, ht, hf, hq, hlb, hlbr, hm⟩ := digit_ne_lits hc
  rw [parseValue, skipWs_cons_not_ws hws]
  dsimp only
  rw [if_neg hn, if_neg ht, if_neg hf, if_neg hq, if_neg hlb, if_neg hlbr, if_neg hm,
      if_pos hc]

/-! ## The parse/print round trip -/

theorem parse_dumps_triple : ∀ fuel : Nat,
    (∀ (v : Json) (rest : List Char), Json.validB v = true → sizeJ v ≤ fuel →
      numOk rest = true →
      parseValue fuel (Json.dumps v ++ rest) = some (v, rest)) ∧
    (∀ (x : Json) (xs : List Json) (rest : List Char),
      Json.validB x = true → validList xs = true →
      1 + sizeJ x + sizeItems xs ≤ fuel → numOk rest = true →
      parseItems fuel (Json.dumps x ++ (dumpsArrTail xs ++ ']' :: rest)) =
        some (x :: xs, rest)) ∧
    (∀ (k : String) (v : Json) (kvs : List (String × Json)) (rest : List Char),
      Json.validB v = true → validMembers kvs = true →
      1 + sizeJ v + sizeMembers kvs ≤ fuel → numOk rest = true →
      parseMembers fuel
          (escString k ++ ':' :: ' ' :: (Json.dumps v ++ (dumpsObjTail kvs ++ rbrace :: rest))) =
        some ((k, v) :: kvs, rest)) := by
  intro fuel
  induction fuel using Nat.strong_induction_on with
  | _ fuel IH =>
  refine ⟨?_, ?_, ?_⟩
  · intro v rest hval hsz hnum
    cases fuel with
    | zero => exact absurd hsz (by have := sizeJ_pos v; omega)
    | succ g =>
      cases v with
      | null => rfl
      | bool b => cases b <;> rfl
      | num n =>
        show parseValue (g + 1) (intRepr n ++ rest) = some (.num n, rest)
        by_cases hneg : n < 0
        · rw [intRepr, if_pos hneg, List.cons_append, parseValue_minus,
              takeDigits_spec (natRepr n.natAbs) rest (natRepr_isDigit _) hnum]
          cases hnr : natRepr n.natAbs with
          | nil => exact absurd hnr (natRepr_ne_nil _)
          | cons d ds =>
            show some (Json.num (-(digitsToNat (d :: ds) : Int)), rest) = some (Json.num n, rest)
            rw [← hnr, digitsToNat_natRepr]
            have harith : (-(n.natAbs : Int)) = n := by omega
            rw [harith]
        · rw [intRepr, if_neg hneg]
          cases hnr : natRepr n.toNat with
          | nil => exact absurd hnr (natRepr_ne_nil _)
          | cons c cs =>
            have hc : isDigitCh c = true :=
              natRepr_isDigit _ c (hnr ▸ List.mem_cons_self c cs)
            rw [List.cons_append, parseValue_digit g c _ hc, ← List.cons_append, ← hnr,
                takeDigits_spec (natRepr n.toNat) rest (natRepr_isDigit _) hnum]
            show some (Json.num (digitsToNat (natRepr n.toNat) : Int), rest) = some (Json.num n, rest)
            rw [digitsToNat_natRepr]
            have harith : ((n.toNat : Int)) = n := by omega
            rw [harith]
      | str s =>
        show parseValue (g + 1) (escString s ++ rest) = some (.str s, rest)
        have hshape : escString s ++ rest =
            '"' :: ((s.data.map escChar).flatten ++ '"' :: rest) := by
          rw [escString]
          simp [List.append_assoc]
        rw [hshape]
        have hred : parseValue (g + 1) ('"' :: ((s.data.map escChar).flatten ++ '"' :: rest)) =
            (match parseStringBody ((s.data.map escChar).flatten ++ '"' :: rest) with
             | some (s1, r) => some (Json.str ⟨s1⟩, r)
             | none => none) := rfl
        rw [hred, parseStringBody_flatten]
      | arr xs =>
        cases xs with
        | nil => rfl
        | cons x xs =>
          have hv : Json.validB x = true ∧ validList xs = true := by
            simpa [Json.validB, validList, Bool.and_eq_true] using hval
          have hsz2 : 1 + sizeJ x + sizeItems xs ≤ g := by
            simp only [sizeJ, sizeItems] at hsz
            omega
          have hshape : Json.dumps (Json.arr (x :: xs)) ++ rest =
              '[' :: (Json.dumps x ++ (dumpsArrTail xs ++ ']' :: rest)) := by
            show ('[' :: (Json.dumps x ++ dumpsArrTail xs) ++ [']']) ++ rest = _
            simp [List.append_assoc]
          rw [hshape]
          have hred : parseValue (g + 1)
              ('[' :: (Json.dumps x ++ (dumpsArrTail xs ++ ']' :: rest))) =
              (match skipWs (Json.dumps x ++ (dumpsArrTail xs ++ ']' :: rest)) with
               | ']' :: r => some (Json.arr [], r)
               | cs2 =>
                 match parseItems g cs2 with
                 | some (ys, r) => some (Json.arr ys, r)
                 | none => none) := rfl
          rw [hred]
          obtain ⟨c, cs2, hd, hws, hne⟩ := dumps_cons x
          rw [hd, List.cons_append, skipWs_cons_not_ws hws]
          split
          next r heq =>
            exact absurd (List.cons.inj heq).1 hne
          next heq =>
            rw [← List.cons_append, ← hd,
              (IH g (Nat.lt_succ_self g)).2.1 x xs rest hv.1 hv.2 hsz2 hnum]
      | obj kvs =>
        cases kvs with
        | nil => rfl
        | cons kv kvs =>
          obtain ⟨k, v⟩ := kv
          have hv : nodupKeys (((k, v) :: kvs).map Prod.fst) = true ∧
              Json.validB v = true ∧ validMembers kvs = true := by
            simpa [Json.validB, validMembers, Bool.and_eq_true, and_assoc] using hval
          have hsz2 : 1 + sizeJ v + sizeMembers kvs ≤ g := by
            simp only [sizeJ, sizeMembers] at hsz
            omega
          have hshape : Json.dumps (Json.obj ((k, v) :: kvs)) ++ rest =
              lbrace :: (escString k ++ ':' :: ' ' ::
                (Json.dumps v ++ (dumpsObjTail kvs ++ rbrace :: rest))) := by
            show (lbrace :: (escString k ++ ':' :: ' ' :: Json.dumps v ++ dumpsObjTail kvs)
              ++ [rbrace]) ++ rest = _
            simp [List.append_assoc]
          rw [hshape]
          have hred : parseValue (g + 1) (lbrace :: (escString k ++ ':' :: ' ' ::
              (Json.dumps v ++ (dumpsObjTail kvs ++ rbrace :: rest)))) =
              (match skipWs (escString k ++ ':' :: ' ' ::
                 (Json.dumps v ++ (dumpsObjTail kvs ++ rbrace :: rest))) with
               | [] => none
               | d :: r =>
                 if d = rbrace then some (Json.obj [], r)
                 else
                   match parseMembers g (d :: r) with
                   | some (ps, r2) => some (Json.obj (buildDict ps), r2)
                   | none => none) := rfl
          rw [hred]
          have he : escString k = '"' :: ((k.data.map escChar).flatten ++ ['"']) := by
            rw [escString]
            rfl
          rw [he, List.cons_append, skipWs_cons_not_ws (by decide)]
          split
          next heq => exact absurd heq (by simp)
          next d r heq =>
            obtain ⟨hd2, hr2⟩ := List.cons.inj heq
            rw [if_neg (by rw [← hd2]; decide), ← hr2, ← hd2, ← List.cons_append, ← he,
              (IH g (Nat.lt_succ_self g)).2.2 k v kvs rest hv.2.1 hv.2.2 hsz2 hnum]
            have hnd : (((k, v) :: kvs).map Prod.fst).Nodup := (nodupKeys_iff _).mp hv.1
            show some (Json.obj (buildDict ((k, v) :: kvs)), rest) =
              some (Json.obj ((k, v) :: kvs), rest)
            rw [buildDict_nodup _ hnd]
  · intro x xs rest hvx hvxs hsz hnum
    cases fuel with
    | zero => exact absurd hsz (by omega)
    | succ g =>
      rw [parseItems,
        (IH g (Nat.lt_succ_self g)).1 x (dumpsArrTail xs ++ ']' :: rest) hvx (by omega)
          (numOk_arrTail xs rest)]
      show (match skipWs (dumpsArrTail xs ++ ']' :: rest) with
            | ',' :: r2 =>
              match parseItems g r2 with
              | some (vs, r3) => some (x :: vs, r3)
              | none => none
            | ']' :: r2 => some ([x], r2)
            | _ => none) = some (x :: xs, rest)
      cases xs with
      | nil => rfl
      | cons y ys =>
        have hvy : Json.validB y = true ∧ validList ys = true := by
          simpa [validList, Bool.and_eq_true] using hvxs
        have hsz3 : 1 + sizeJ y + sizeItems ys ≤ g := by
          simp only [sizeItems] at hsz
          omega
        rw [show dumpsArrTail (y :: ys) ++ ']' :: rest =
            ',' :: (' ' :: (Json.dumps y ++ (dumpsArrTail ys ++ ']' :: rest))) from by
          simp [dumpsArrTail, List.append_assoc]]
        rw [skipWs_cons_not_ws (by decide)]
        show (match parseItems g (' ' :: (Json.dumps y ++ (dumpsArrTail ys ++ ']' :: rest))) with
              | some (vs, r3) => some (x :: vs, r3)
              | none => none) = some (x :: y :: ys, rest)
        rw [parseItems_ws,
          (IH g (Nat.lt_succ_self g)).2.1 y ys rest hvy.1 hvy.2 hsz3 hnum]
  · intro k v kvs rest hvv hvkvs hsz hnum
    cases fuel with
    | zero => exact absurd hsz (by omega)
    | succ g =>
      rw [parseMembers]
      have he : escString k ++ ':' :: ' ' :: (Json.dumps v ++ (dumpsObjTail kvs ++ rbrace :: rest)) =
          '"' :: ((k.data.map escChar).flatten ++ '"' ::
            (':' :: ' ' :: (Json.dumps v ++ (dumpsObjTail kvs ++ rbrace :: rest)))) := by
        rw [escString]
        simp [List.append_assoc]
      rw [he, skipWs_cons_not_ws (by decide)]
      show (match parseStringBody ((k.data.map escChar).flatten ++ '"' ::
              (':' :: ' ' :: (Json.dumps v ++ (dumpsObjTail kvs ++ rbrace :: rest)))) with
            | some (k1, r1) =>
              match skipWs r1 with
              | ':' :: r2 =>
                match parseValue g r2 with
                | some (v1, r3) =>
                  match skipWs r3 with
                  | ',' :: r4 =>
                    match parseMembers g r4 with
                    | some (ps, r5) => some ((String.mk k1, v1) :: ps, r5)
                    | none => none
                  | d :: r4 => if d = rbrace then some ([(String.mk k1, v1)], r4) else none
                  | [] => none
                | none => none
              | _ => none
            | none => none) = some ((k, v) :: kvs, rest)
      rw [parseStringBody_flatten]
      show (match parseValue g (' ' :: (Json.dumps v ++ (dumpsObjTail kvs ++ rbrace :: rest))) with
            | some (v1, r3) =>
              match skipWs r3 with
              | ',' :: r4 =>
                match parseMembers g r4 with
                | some (ps, r5) => some ((String.mk k.data, v1) :: ps, r5)
                | none => none
              | d :: r4 => if d = rbrace then some ([(String.mk k.data, v1)], r4) else none
              | [] => none
            | none => none) = some ((k, v) :: kvs, rest)
      rw [parseValue_ws,
        (IH g (Nat.lt_succ_self g)).1 v _ hvv (by omega) (numOk_objTail kvs rest)]
      show (match skipWs (dumpsObjTail kvs ++ rbrace :: rest) with
            | ',' :: r4 =>
              match parseMembers g r4 with
              | some (ps, r5) => some ((String.mk k.data, v) :: ps, r5)
              | none => none
            | d :: r4 => if d = rbrace then some ([(String.mk k.data, v)], r4) else none
            | [] => none) = some ((k, v) :: kvs, rest)
      cases kvs with
      | nil => rfl
      | cons kv2 kvs2 =>
        obtain ⟨k2, v2⟩ := kv2
        have hv2 : Json.validB v2 = true ∧ validMembers kvs2 = true := by
          simpa [validMembers, Bool.and_eq_true] using hvkvs
        have hsz4 : 1 + sizeJ v2 + sizeMembers kvs2 ≤ g := by
          simp only [sizeMembers] at hsz
          omega
        rw [show dumpsObjTail ((k2, v2) :: kvs2) ++ rbrace :: rest =
            ',' :: (' ' :: (escString k2 ++ ':' :: ' ' ::
              (Json.dumps v2 ++ (dumpsObjTail kvs2 ++ rbrace :: rest)))) from by
          simp [dumpsObjTail, List.append_assoc]]
        rw [skipWs_cons_not_ws (by decide)]
        show (match parseMembers g (' ' :: (escString k2 ++ ':' :: ' ' ::
                (Json.dumps v2 ++ (dumpsObjTail kvs2 ++ rbrace :: rest)))) with
              | some (ps, r5) => some ((String.mk k.data, v) :: ps, r5)
              | none => none) = some ((k, v) :: (k2, v2) :: kvs2, rest)
        rw [parseMembers_ws,
          (IH g (Nat.lt_succ_self g)).2.2 k2 v2 kvs2 rest hv2.1 hv2.2 hsz4 hnum]

theorem loads_dumps (v : Json) (hv : Json.validB v = true) :
    Json.loads (Json.dumps v) = some v := by
  rw [Json.loads]
  have h1 : sizeJ v ≤ 2 * (Json.dumps v).length + 1 := by
    have := sizeJ_le v
    omega
  have h2 := (parse_dumps_triple (2 * (Json.dumps v).length + 1)).1 v [] hv h1 rfl
  rw [List.append_nil] at h2
  rw [h2]
  rfl

theorem splitNL_encoded (es : List Json) :
    splitNL ((es.map encodeEnvelope).flatten) = (es.map Json.dumps, []) := by
  induction es with
  | nil => rfl
  | cons e es ih =>
    simp only [List.map_cons, List.flatten_cons]
    rw [encodeEnvelope, List.append_assoc,
        show ['\n'] ++ (es.map encodeEnvelope).flatten =
          '\n' :: (es.map encodeEnvelope).flatten from rfl,
        splitNL_unit _ _ (dumps_no_nl e), ih]

theorem extractUnits_encoded (es : List Json) :
    extractUnits ((es.map encodeEnvelope).flatten) = (es.map Json.dumps, []) := by
  have hfilter : (es.map Json.dumps).filter (fun s => !s.isEmpty) = es.map Json.dumps := by
    apply List.filter_eq_self.mpr
    intro a ha
    rcases List.mem_map.mp ha with ⟨e, _, he⟩
    subst he
    simp [List.isEmpty_iff, dumps_ne_nil e]
  rw [extractUnits, splitNL_encoded]
  show ((es.map Json.dumps).filter (fun s => !s.isEmpty), []) = (es.map Json.dumps, [])
  rw [hfilter]

/-- C2.  Newline framing round trip: encoding any sequence of valid
envelopes (`json.dumps` plus a single `'\n'` each, the sender side of
`_clientSendLoop` / `_serverSendLoop`), concatenating, and feeding the
stream to the buffering receive loop (`_serverHandleClient` /
`_clientReceiveLoop`) in arbitrary nonempty chunk splits yields exactly the
original envelopes in their original order. -/
theorem framing_roundtrip (es : List Json) (chunks : List (List Char))
    (hv : ∀ e ∈ es, Json.validB e = true)
    (hne : ∀ d ∈ chunks, d ≠ [])
    (hsplit : chunks.flatten = (es.map encodeEnvelope).flatten) :
    decodeStream chunks = es := by
  rw [decodeStream, feedChunks_extract chunks [] (by simp) hne, List.nil_append,
      hsplit, extractUnits_encoded]
  show ((es.map Json.dumps).map parseMessages).flatten = es
  clear hsplit
  revert hv
  induction es with
  | nil => intro _; rfl
  | cons e es ih =>
    intro hv
    simp only [List.map_cons, List.flatten_cons]
    rw [show parseMessages (Json.dumps e) = [e] from by
          rw [parseMessages, loads_dumps e (hv e (List.mem_cons_self e es))],
        ih (fun e2 h2 => hv e2 (List.mem_cons_of_mem e h2))]
    rfl

set_option maxRecDepth 100000 in
/-- Closed instance of `framing_roundtrip`: two envelopes, stream split into
three chunks cutting through the middle of both encoded envelopes. -/
theorem framing_roundtrip_witness :
    (∀ e ∈ witnessEnvelopes, Json.validB e = true) ∧
    (∀ d ∈ witnessChunks, d ≠ []) ∧
    witnessChunks.flatten = (witnessEnvelopes.map encodeEnvelope).flatten ∧
    decodeStream witnessChunks = witnessEnvelopes :=
  ⟨by decide, by decide, by decide,
   framing_roundtrip witnessEnvelopes witnessChunks (by decide) (by decide) (by decide)⟩
